import Mathlib

/-!
Verification of the powerplant production-plan service (`app.py`).

The embedding models the dispatch computation over exact rationals:
`round(x * 10) / 10` in Python becomes `round10` (round to the nearest
tenth), `int(...)` becomes truncation toward zero, and the float
quantities of the source become `ℚ`.  A division by a zero efficiency,
which raises `ZeroDivisionError` in Python, is modelled by `Except Unit`.
-/

/-- `round(x * 10) / 10` of the source: rounding to the nearest tenth. -/
def round10 (q : ℚ) : ℚ := (round (q * 10) : ℚ) / 10

/-- Python `int(...)`: truncation toward zero. -/
def pyTrunc (q : ℚ) : ℤ := if 0 ≤ q then ⌊q⌋ else ⌈q⌉

/-- A rational that is a whole number of tenths: the granularity grid on
which every produced plan value lives. -/
def onGrid (q : ℚ) : Prop := ∃ k : ℤ, q = k / 10

theorem onGrid_zero : onGrid 0 := ⟨0, by norm_num⟩

theorem onGrid_tenth : onGrid 0.1 := ⟨1, by norm_num⟩

theorem onGrid_intCast (k : ℤ) : onGrid (k : ℚ) := ⟨10 * k, by push_cast; ring⟩

theorem onGrid_add {a b : ℚ} (ha : onGrid a) (hb : onGrid b) : onGrid (a + b) := by
  obtain ⟨k, rfl⟩ := ha; obtain ⟨l, rfl⟩ := hb
  exact ⟨k + l, by push_cast; ring⟩

theorem onGrid_neg {a : ℚ} (ha : onGrid a) : onGrid (-a) := by
  obtain ⟨k, rfl⟩ := ha
  exact ⟨-k, by push_cast; ring⟩

theorem onGrid_sub {a b : ℚ} (ha : onGrid a) (hb : onGrid b) : onGrid (a - b) :=
  sub_eq_add_neg a b ▸ onGrid_add ha (onGrid_neg hb)

theorem onGrid_min {a b : ℚ} (ha : onGrid a) (hb : onGrid b) : onGrid (min a b) := by
  rcases min_choice a b with h | h <;> rw [h] <;> assumption

theorem onGrid_max {a b : ℚ} (ha : onGrid a) (hb : onGrid b) : onGrid (max a b) := by
  rcases max_choice a b with h | h <;> rw [h] <;> assumption

theorem round10_grid (q : ℚ) : onGrid (round10 q) := ⟨round (q * 10), rfl⟩

/-- On the tenth grid, `round10` is the identity. -/
theorem round10_eq_self {q : ℚ} (h : onGrid q) : round10 q = q := by
  obtain ⟨k, rfl⟩ := h
  unfold round10
  rw [show (k : ℚ) / 10 * 10 = (k : ℚ) by field_simp, round_intCast]

theorem round10_le_add_twentieth (q : ℚ) : round10 q ≤ q + 1 / 20 := by
  unfold round10
  have h := round_le_add_half (q * 10)
  rw [div_le_iff₀ (by norm_num : (0:ℚ) < 10)]
  linarith

theorem sub_twentieth_lt_round10 (q : ℚ) : q - 1 / 20 < round10 q := by
  unfold round10
  have h := sub_half_lt_round (q * 10)
  rw [lt_div_iff₀ (by norm_num : (0:ℚ) < 10)]
  linarith

theorem round10_mono {a b : ℚ} (h : a ≤ b) : round10 a ≤ round10 b := by
  unfold round10
  have h1 : round (a * 10) ≤ round (b * 10) := by
    rw [round_eq, round_eq]
    exact Int.floor_mono (by linarith)
  have h2 : ((round (a * 10) : ℤ) : ℚ) ≤ ((round (b * 10) : ℤ) : ℚ) := by exact_mod_cast h1
  linarith

/-- `round10` vanishes exactly on `[-1/20, 1/20)`. -/
theorem round10_eq_zero {q : ℚ} (h1 : -(1 / 20) ≤ q) (h2 : q < 1 / 20) : round10 q = 0 := by
  unfold round10
  have : round (q * 10) = 0 := by
    rw [round_eq]
    apply Int.floor_eq_zero_iff.2
    constructor <;> simp <;> linarith
  rw [this]; norm_num

theorem round10_zero : round10 0 = 0 := round10_eq_self onGrid_zero

theorem round10_nonneg {q : ℚ} (h : 0 ≤ q) : 0 ≤ round10 q := by
  have := round10_mono h
  rwa [round10_zero] at this

theorem round10_tenth_le {q : ℚ} (h : 0.1 ≤ q) : 0.1 ≤ round10 q := by
  have := round10_mono h
  rwa [round10_eq_self onGrid_tenth] at this

/-- A `PowerPlant` object of `app.py` after construction: the static fields
from the payload plus the two derived fields `cost_per_mwh` and
`available_power` (initialised to 0 by `__init__`). -/
structure Plant where
  name : String
  type : String
  efficiency : ℚ
  pmin : ℚ
  pmax : ℚ
  cost_per_mwh : ℚ
  available_power : ℚ
deriving Repr, DecidableEq

/-- One powerplant record of the request payload. -/
structure PlantData where
  name : String
  type : String
  efficiency : ℚ
  pmin : ℚ
  pmax : ℚ
deriving Repr, DecidableEq

/-- The `fuels` record of the request payload. -/
structure Fuels where
  gas : ℚ
  kerosine : ℚ
  co2 : ℚ
  wind : ℚ
deriving Repr, DecidableEq

/-- A full request payload. -/
structure Payload where
  load : ℚ
  fuels : Fuels
  powerplants : List PlantData
deriving Repr, DecidableEq

/-- `PowerPlant.__init__`: derived fields start at 0. -/
def mkPlant (d : PlantData) : Plant :=
  { name := d.name, type := d.type, efficiency := d.efficiency,
    pmin := d.pmin, pmax := d.pmax, cost_per_mwh := 0, available_power := 0 }

/-- `PowerPlant.calculate_cost`: sets `cost_per_mwh` and `available_power`
according to the plant type.  The gas and turbojet branches divide by
`efficiency`; in Python a zero efficiency raises `ZeroDivisionError`,
modelled here as `Except.error`. -/
def calculate_cost (pl : Plant) (gas_price kerosine_price co2_price wind_percentage : ℚ) :
    Except Unit Plant :=
  if pl.type = "windturbine" then
    .ok { pl with cost_per_mwh := 0,
                  available_power := (pyTrunc (pl.pmax * wind_percentage / 100) : ℚ) }
  else if pl.type = "gasfired" then
    if pl.efficiency = 0 then .error () else
    .ok { pl with cost_per_mwh := gas_price / pl.efficiency + (0.3 * co2_price) / pl.efficiency,
                  available_power := pl.pmax }
  else if pl.type = "turbojet" then
    if pl.efficiency = 0 then .error () else
    .ok { pl with cost_per_mwh := kerosine_price / pl.efficiency,
                  available_power := pl.pmax }
  else .ok pl

/-- The merit-order key comparison of line 71 of `app.py`:
`(cost_per_mwh, -available_power)` compared lexicographically. -/
def meritLE (a b : Plant) : Bool :=
  decide (a.cost_per_mwh < b.cost_per_mwh ∨
    (a.cost_per_mwh = b.cost_per_mwh ∧ b.available_power ≤ a.available_power))

/-- Stable insertion of a plant into an already merit-sorted list: the new
element goes after every element whose key is less than or equal to its
own, the placement a stable sort gives the latest input element. -/
def sortedInsert (a : Plant) : List Plant → List Plant
  | [] => [a]
  | b :: bs => if meritLE b a then b :: sortedInsert a bs else a :: b :: bs

/-- `self.plants.sort(key=lambda p: (p.cost_per_mwh, -p.available_power))`:
Python's sort is stable, hence equal to the stable insertion sort for the
same key. -/
def sortPlants (l : List Plant) : List Plant :=
  l.foldl (fun acc a => sortedInsert a acc) []

/-- The wind pass (lines 93-101): each windturbine with positive remaining
load produces `round10 (min available_power remaining)`; every other entry
of the freshly initialised plan stays 0.  Returns the plan values in plant
order together with the remaining load. -/
def windPass : List Plant → ℚ → List ℚ × ℚ
  | [], r => ([], r)
  | pl :: ps, r =>
    if pl.type = "windturbine" ∧ 0 < r then
      (round10 (min pl.available_power r) ::
         (windPass ps (r - round10 (min pl.available_power r))).1,
       (windPass ps (r - round10 (min pl.available_power r))).2)
    else
      (0 :: (windPass ps r).1, (windPass ps r).2)

/-- The unrounded increment of lines 129-133 of `app.py`: what an idle
plant (p = 0) or a running plant would add before rounding. -/
def rawInc (pl : Plant) (p r : ℚ) : ℚ :=
  if p = 0 then max (min r pl.pmax) pl.pmin else min r (pl.pmax - p)

/-- The eligibility test of lines 118-127 of `app.py`: the rounded
increment is applied iff the plant is not skipped (line 114), the
`max_possible ≥ min_increment` gate holds (line 127) and the rounded
increment is at least 0.1 (line 138). -/
def stepApplies (pl : Plant) (p r : ℚ) : Prop :=
  ¬(pl.type = "windturbine" ∨ pl.pmax ≤ p) ∧
    (if p = 0 then max pl.pmin 0.1 else 0.1) ≤ min pl.pmax (r + p) ∧
    0.1 ≤ round10 (rawInc pl p r)

instance (pl : Plant) (p r : ℚ) : Decidable (stepApplies pl p r) :=
  inferInstanceAs (Decidable (¬(pl.type = "windturbine" ∨ pl.pmax ≤ p) ∧
    (if p = 0 then max pl.pmin 0.1 else 0.1) ≤ min pl.pmax (r + p) ∧
    0.1 ≤ round10 (rawInc pl p r)))

/-- The treatment of a single plant inside one pass of the greedy loop
(lines 109-145 of `app.py`): given the plant, its current production and
the remaining load, returns the new production, the new remaining load
and whether an increment was applied (lines 139-141). -/
def greedyStep (pl : Plant) (p r : ℚ) : ℚ × ℚ × Bool :=
  if stepApplies pl p r then
    (round10 (p + round10 (rawInc pl p r)), round10 (r - round10 (rawInc pl p r)), true)
  else (p, r, false)

/-- One full pass of the greedy loop over the plant list (the
`for i in plant_indices` loop): threads the remaining load left to right,
records whether any increment was applied (`made_progress`), and stops
the pass early when an applied increment leaves remaining load ≤ 0.1
(the `break` at line 145), leaving the later entries untouched. -/
def greedyPass : List Plant → List ℚ → ℚ → List ℚ × ℚ × Bool
  | [], _, r => ([], r, false)
  | _ :: _, [], r => ([], r, false)
  | pl :: ps, p :: qs, r =>
    if (greedyStep pl p r).2.2 = true ∧ (greedyStep pl p r).2.1 ≤ 0.1 then
      ((greedyStep pl p r).1 :: qs, (greedyStep pl p r).2.1, true)
    else
      ((greedyStep pl p r).1 :: (greedyPass ps qs (greedyStep pl p r).2.1).1,
       (greedyPass ps qs (greedyStep pl p r).2.1).2.1,
       (greedyStep pl p r).2.2 || (greedyPass ps qs (greedyStep pl p r).2.1).2.2)

theorem rawInc_le_r {pl : Plant} {p r : ℚ} (h : stepApplies pl p r) : rawInc pl p r ≤ r := by
  obtain ⟨-, hgate, -⟩ := h
  unfold rawInc
  by_cases hp : p = 0
  · subst hp
    rw [if_pos rfl]
    have hgate' : max pl.pmin 0.1 ≤ min pl.pmax r := by simpa using hgate
    have h1 : pl.pmin ≤ r := le_trans (le_trans (le_max_left _ _) hgate') (min_le_right _ _)
    exact max_le (min_le_left _ _) h1
  · rw [if_neg hp]
    exact min_le_left _ _

theorem greedyStep_applied {pl : Plant} {p r : ℚ} (h : stepApplies pl p r) :
    greedyStep pl p r =
      (round10 (p + round10 (rawInc pl p r)), round10 (r - round10 (rawInc pl p r)), true) := by
  unfold greedyStep; rw [if_pos h]

theorem greedyStep_not_applied {pl : Plant} {p r : ℚ} (h : ¬stepApplies pl p r) :
    greedyStep pl p r = (p, r, false) := by
  unfold greedyStep; rw [if_neg h]

/-- An applied increment lowers the remaining load by at least 1/20. -/
theorem greedyStep_applied_r_le {pl : Plant} {p r : ℚ} (h : stepApplies pl p r) :
    (greedyStep pl p r).2.1 ≤ r - 1 / 20 := by
  rw [greedyStep_applied h]
  have hinc : (0.1 : ℚ) ≤ round10 (rawInc pl p r) := h.2.2
  have := round10_le_add_twentieth (r - round10 (rawInc pl p r))
  simp only []
  norm_num at hinc ⊢
  linarith

theorem greedyStep_r_le (pl : Plant) (p r : ℚ) : (greedyStep pl p r).2.1 ≤ r := by
  by_cases h : stepApplies pl p r
  · linarith [greedyStep_applied_r_le h]
  · rw [greedyStep_not_applied h]

/-- The remaining load never grows across a pass. -/
theorem greedyPass_r_le (ps : List Plant) (qs : List ℚ) (r : ℚ) :
    (greedyPass ps qs r).2.1 ≤ r := by
  induction ps generalizing qs r with
  | nil => simp [greedyPass]
  | cons pl ps ih =>
    cases qs with
    | nil => simp [greedyPass]
    | cons p qs =>
      rw [greedyPass]
      split
      · exact greedyStep_r_le pl p r
      · exact le_trans (ih qs _) (greedyStep_r_le pl p r)

/-- A pass that made progress lowered the remaining load by at least 1/20. -/
theorem greedyPass_progress_r_le (ps : List Plant) (qs : List ℚ) (r : ℚ)
    (h : (greedyPass ps qs r).2.2 = true) : (greedyPass ps qs r).2.1 ≤ r - 1 / 20 := by
  induction ps generalizing qs r with
  | nil => simp [greedyPass] at h
  | cons pl ps ih =>
    cases qs with
    | nil => simp [greedyPass] at h
    | cons p qs =>
      rw [greedyPass] at h ⊢
      by_cases happ : stepApplies pl p r
      · split
        · exact greedyStep_applied_r_le happ
        · exact le_trans (greedyPass_r_le ps qs _) (greedyStep_applied_r_le happ)
      · rw [greedyStep_not_applied happ] at h ⊢
        simp only [Bool.false_or] at h ⊢
        split at h
        · next hb => exact absurd hb.1 (by simp)
        · split
          · next hb => exact absurd hb.1 (by simp)
          · exact ih qs r h

/-- The `while remaining_load > 0.1` loop of lines 106-149: repeat full
passes while the remaining load exceeds 0.1; a pass that applies no
increment ends the loop (`if not made_progress: break`).  The third
component counts the executed passes.  Termination: every progressing
pass lowers the remaining load by at least 1/20. -/
def greedyLoop (ps : List Plant) (qs : List ℚ) (r : ℚ) : List ℚ × ℚ × ℕ :=
  if h : 0.1 < r then
    if hp : (greedyPass ps qs r).2.2 = true then
      if h2 : 0.1 < (greedyPass ps qs r).2.1 then
        ((greedyLoop ps (greedyPass ps qs r).1 (greedyPass ps qs r).2.1).1,
         (greedyLoop ps (greedyPass ps qs r).1 (greedyPass ps qs r).2.1).2.1,
         (greedyLoop ps (greedyPass ps qs r).1 (greedyPass ps qs r).2.1).2.2 + 1)
      else ((greedyPass ps qs r).1, (greedyPass ps qs r).2.1, 1)
    else ((greedyPass ps qs r).1, (greedyPass ps qs r).2.1, 1)
  else (qs, r, 0)
termination_by (⌈r * 20⌉).toNat
decreasing_by
  have hd := greedyPass_progress_r_le ps qs r hp
  have hceil1 : ⌈(greedyPass ps qs r).2.1 * 20⌉ ≤ ⌈r * 20⌉ - 1 := by
    have : (greedyPass ps qs r).2.1 * 20 ≤ r * 20 - 1 := by linarith
    calc ⌈(greedyPass ps qs r).2.1 * 20⌉ ≤ ⌈r * 20 - 1⌉ := Int.ceil_mono this
      _ = ⌈r * 20⌉ - 1 := by
          rw [show r * 20 - 1 = r * 20 + (-1 : ℤ) by push_cast; ring, Int.ceil_add_int]
          omega
  have hceil2 : (3 : ℤ) ≤ ⌈r * 20⌉ := by
    have : (2 : ℚ) < r * 20 := by linarith
    exact Int.le_ceil_iff.2 (by push_cast; linarith)
  omega

/-- The final adjustment of lines 151-164: if the total misses the target
by more than 0.1, scan the plan from the last entry backwards and, at the
first active entry (p > 0) whose adjusted value stays within
[pmin, pmax], replace it by the rounded adjusted value and stop.  Returns
the adjusted plan and whether some entry was adjusted. -/
def residual_adjust : List Plant → List ℚ → ℚ → List ℚ × Bool
  | _, [], _ => ([], false)
  | [], qs, _ => (qs, false)
  | pl :: ps, p :: qs, difference =>
    if (residual_adjust ps qs difference).2 = true then
      (p :: (residual_adjust ps qs difference).1, true)
    else if 0 < p ∧ pl.pmin ≤ p + difference ∧ p + difference ≤ pl.pmax then
      (round10 (p + difference) :: qs, true)
    else (p :: qs, false)

/-- `ProductionPlanCalculator._optimize_production` (lines 84-166): wind
pass, greedy loop, then the residual correction when the total misses the
target by more than 0.1.  Returns one (name, p) pair per plant, in the
order of the given (merit-sorted) plant list. -/
def optimize_production (plants : List Plant) (target_load : ℚ) : List (String × ℚ) :=
  (plants.map Plant.name).zip
    (if 0.1 < |target_load -
          ((greedyLoop plants (windPass plants target_load).1 (windPass plants target_load).2).1).sum| then
       (residual_adjust plants
         (greedyLoop plants (windPass plants target_load).1 (windPass plants target_load).2).1
         (target_load -
           ((greedyLoop plants (windPass plants target_load).1 (windPass plants target_load).2).1).sum)).1
     else (greedyLoop plants (windPass plants target_load).1 (windPass plants target_load).2).1)

/-- The body of the `for plant_data in powerplants_data` loop of lines
54-68: build each `PowerPlant` object and derive its cost and
availability; the first raised exception propagates. -/
def buildPlants (fuels : Fuels) : List PlantData → Except Unit (List Plant)
  | [] => .ok []
  | d :: ds =>
    match calculate_cost (mkPlant d) fuels.gas fuels.kerosine fuels.co2 fuels.wind with
    | .error e => .error e
    | .ok pl =>
      match buildPlants fuels ds with
      | .error e => .error e
      | .ok pls => .ok (pl :: pls)

/-- Lines 52-68: build the `PowerPlant` objects and derive their cost and
availability. -/
def derivedPlants (payload : Payload) : Except Unit (List Plant) :=
  buildPlants payload.fuels payload.powerplants

/-- `ProductionPlanCalculator.calculate_production_plan` (lines 45-78):
derive the plants, sort them in merit order, and optimize. -/
def calculate_production_plan (payload : Payload) : Except Unit (List (String × ℚ)) := do
  let plants ← derivedPlants payload
  pure (optimize_production (sortPlants plants) payload.load)

/-- The `/productionplan` endpoint (lines 170-196) on an already
well-formed JSON payload: a successful computation is returned as HTTP
200 with the plan; an exception inside the computation yields HTTP 500
with no plan. -/
def production_plan (payload : Payload) : ℕ × Option (List (String × ℚ)) :=
  match calculate_production_plan payload with
  | .ok plan => (200, some plan)
  | .error _ => (500, none)

/-- Total available capacity of a derived fleet. -/
def totalAvailable (plants : List Plant) : ℚ := (plants.map Plant.available_power).sum

theorem rawInc_mono_r {pl : Plant} {p r r2 : ℚ} (h : r2 ≤ r) :
    rawInc pl p r2 ≤ rawInc pl p r := by
  unfold rawInc
  by_cases hp : p = 0
  · rw [if_pos hp, if_pos hp]
    exact max_le_max (min_le_min h (le_refl _)) (le_refl _)
  · rw [if_neg hp, if_neg hp]
    exact min_le_min h (le_refl _)

/-- Once a unit fails the eligibility test, it keeps failing at any
smaller remaining load (both the gate and the rounded increment are
monotone in the remaining load). -/
theorem stepApplies_mono {pl : Plant} {p r r2 : ℚ} (h : ¬stepApplies pl p r) (hr : r2 ≤ r) :
    ¬stepApplies pl p r2 := by
  intro h2
  apply h
  obtain ⟨hskip, hgate, hinc⟩ := h2
  refine ⟨hskip, ?_, ?_⟩
  · exact le_trans hgate (min_le_min (le_refl _) (by linarith))
  · exact le_trans hinc (round10_mono (rawInc_mono_r hr))

theorem rawInc_idle {pl : Plant} {r : ℚ} (h : stepApplies pl 0 r) :
    rawInc pl 0 r = min r pl.pmax := by
  have hgate := h.2.1
  simp only [if_pos rfl, add_zero] at hgate
  have h1 : pl.pmin ≤ r :=
    le_trans (le_trans (le_max_left _ _) hgate) (min_le_right _ _)
  have h2 : pl.pmin ≤ pl.pmax :=
    le_trans (le_trans (le_max_left _ _) hgate) (min_le_left _ _)
  unfold rawInc
  rw [if_pos rfl, max_eq_left (le_min h1 h2)]

theorem rawInc_run {pl : Plant} {p r : ℚ} (hp : p ≠ 0) :
    rawInc pl p r = min r (pl.pmax - p) := by
  unfold rawInc; rw [if_neg hp]

theorem stepApplies_inc_le {pl : Plant} {p r : ℚ} (h : stepApplies pl p r) :
    round10 (rawInc pl p r) ≤ round10 r :=
  round10_mono (rawInc_le_r h)

/-- An applied increment never leaves a negative remaining load. -/
theorem greedyStep_applied_r_nonneg {pl : Plant} {p r : ℚ} (h : stepApplies pl p r) :
    0 ≤ (greedyStep pl p r).2.1 := by
  rw [greedyStep_applied h]
  have h1 : round10 (rawInc pl p r) ≤ round10 r := stepApplies_inc_le h
  have h2 : round10 r ≤ r + 1 / 20 := round10_le_add_twentieth r
  have h3 : -(1 / 20) ≤ r - round10 (rawInc pl p r) := by linarith
  calc (0 : ℚ) = round10 (-(1 / 20)) :=
        (round10_eq_zero (le_refl _) (by norm_num)).symm
    _ ≤ round10 (r - round10 (rawInc pl p r)) := round10_mono h3

theorem greedyStep_p_grid {pl : Plant} {p r : ℚ} (hp : onGrid p) :
    onGrid (greedyStep pl p r).1 := by
  by_cases h : stepApplies pl p r
  · rw [greedyStep_applied h]; exact round10_grid _
  · rw [greedyStep_not_applied h]; exact hp

theorem greedyStep_applied_r_grid {pl : Plant} {p r : ℚ} (h : stepApplies pl p r) :
    onGrid (greedyStep pl p r).2.1 := by
  rw [greedyStep_applied h]; exact round10_grid _

/-- With a grid production value, the applied step adds the rounded
increment exactly. -/
theorem greedyStep_applied_p_eq {pl : Plant} {p r : ℚ} (hp : onGrid p)
    (h : stepApplies pl p r) :
    (greedyStep pl p r).1 = p + round10 (rawInc pl p r) := by
  rw [greedyStep_applied h]
  exact round10_eq_self (onGrid_add hp (round10_grid _))

/-- A unit's production never decreases in a greedy step, and grows by at
least 0.1 when the step applies. -/
theorem greedyStep_applied_p_ge {pl : Plant} {p r : ℚ} (hp : onGrid p)
    (h : stepApplies pl p r) : p + 0.1 ≤ (greedyStep pl p r).1 := by
  rw [greedyStep_applied_p_eq hp h]
  have := h.2.2
  linarith [h.2.2]

theorem greedyStep_p_le {pl : Plant} {p r : ℚ} (hp : onGrid p) :
    p ≤ (greedyStep pl p r).1 := by
  by_cases h : stepApplies pl p r
  · linarith [greedyStep_applied_p_ge hp h]
  · rw [greedyStep_not_applied h]

/-- A step never touches a windturbine entry. -/
theorem greedyStep_wind {pl : Plant} {p r : ℚ} (hw : pl.type = "windturbine") :
    greedyStep pl p r = (p, r, false) := by
  apply greedyStep_not_applied
  intro h
  exact h.1 (Or.inl hw)

/-- In the all-grid situation the step arithmetic is exact: the raw
increment is already on the grid, so the applied step adds and subtracts
it with no rounding. -/
theorem rawInc_grid {pl : Plant} {p r : ℚ} (hmin : onGrid pl.pmin) (hmax : onGrid pl.pmax)
    (hp : onGrid p) (hr : onGrid r) : onGrid (rawInc pl p r) := by
  unfold rawInc
  by_cases h : p = 0
  · rw [if_pos h]; exact onGrid_max (onGrid_min hr hmax) hmin
  · rw [if_neg h]; exact onGrid_min hr (onGrid_sub hmax hp)

theorem greedyStep_applied_grid_eq {pl : Plant} {p r : ℚ} (hmin : onGrid pl.pmin)
    (hmax : onGrid pl.pmax) (hp : onGrid p) (hr : onGrid r) (h : stepApplies pl p r) :
    greedyStep pl p r = (p + rawInc pl p r, r - rawInc pl p r, true) := by
  have hg : onGrid (rawInc pl p r) := rawInc_grid hmin hmax hp hr
  rw [greedyStep_applied h, round10_eq_self hg,
    round10_eq_self (onGrid_add hp hg), round10_eq_self (onGrid_sub hr hg)]

/-- Grid case: an applied step keeps a non-wind unit inside its bounds:
an idle unit lands in [pmin, pmax], a running unit inside its bounds
stays there. -/
theorem greedyStep_applied_bounds_grid {pl : Plant} {p r : ℚ} (hmin : onGrid pl.pmin)
    (hmax : onGrid pl.pmax) (hp : onGrid p) (hr : onGrid r) (h : stepApplies pl p r)
    (hb : p = 0 ∨ (pl.pmin ≤ p ∧ p ≤ pl.pmax)) :
    pl.pmin ≤ (greedyStep pl p r).1 ∧ (greedyStep pl p r).1 ≤ pl.pmax := by
  rw [greedyStep_applied_grid_eq hmin hmax hp hr h]
  dsimp only
  have hg : onGrid (rawInc pl p r) := rawInc_grid hmin hmax hp hr
  have hinc : (0.1 : ℚ) ≤ rawInc pl p r := by
    have := h.2.2
    rwa [round10_eq_self hg] at this
  by_cases hp0 : p = 0
  · subst hp0
    rw [rawInc_idle h, zero_add]
    have hgate := h.2.1
    simp only [if_pos rfl, add_zero] at hgate
    have h1 : pl.pmin ≤ r :=
      le_trans (le_trans (le_max_left _ _) hgate) (min_le_right _ _)
    have h2 : pl.pmin ≤ pl.pmax :=
      le_trans (le_trans (le_max_left _ _) hgate) (min_le_left _ _)
    exact ⟨le_min h1 h2, min_le_right r pl.pmax⟩
  · rcases hb with hb | hb
    · exact absurd hb hp0
    · rw [rawInc_run hp0] at hinc ⊢
      constructor
      · linarith [hb.1]
      · have := min_le_right r (pl.pmax - p)
        linarith

theorem greedyStep_bool {pl : Plant} {p r : ℚ} :
    (greedyStep pl p r).2.2 = true ↔ stepApplies pl p r := by
  by_cases h : stepApplies pl p r
  · rw [greedyStep_applied h]; simpa using h
  · rw [greedyStep_not_applied h]; simpa using h

/-- Once a unit has been applied and the remaining load stayed above 0.1
(no break), the unit can never be applied again: its remaining headroom
to pmax is below half the granularity, so any further increment rounds
to 0. -/
theorem greedyStep_dead {pl : Plant} {p r : ℚ} (hp : onGrid p) (hp0 : 0 ≤ p)
    (h : stepApplies pl p r) (hnb : 0.1 < (greedyStep pl p r).2.1) (r2 : ℚ) :
    ¬stepApplies pl (greedyStep pl p r).1 r2 := by
  have hpeq : (greedyStep pl p r).1 = p + round10 (rawInc pl p r) :=
    greedyStep_applied_p_eq hp h
  have hreq : (greedyStep pl p r).2.1 = round10 (r - round10 (rawInc pl p r)) := by
    rw [greedyStep_applied h]
  have hinc : (0.1 : ℚ) ≤ round10 (rawInc pl p r) := h.2.2
  have hppos : 0 < (greedyStep pl p r).1 := by
    rw [hpeq]
    norm_num at hinc ⊢
    linarith
  have hcontr : rawInc pl p r = r → False := by
    intro he
    rw [hreq, he,
      round10_eq_zero (by linarith [round10_le_add_twentieth r])
        (by linarith [sub_twentieth_lt_round10 r])] at hnb
    norm_num at hnb
  have hhead : pl.pmax - (greedyStep pl p r).1 < 1 / 20 := by
    by_cases hpz : p = 0
    · subst hpz
      rw [rawInc_idle h] at hpeq hcontr
      rcases le_total r pl.pmax with hcase | hcase
      · exact absurd (min_eq_left hcase) hcontr
      · rw [min_eq_right hcase] at hpeq
        rw [hpeq]
        linarith [sub_twentieth_lt_round10 pl.pmax]
    · rw [rawInc_run hpz] at hpeq hcontr
      rcases le_total r (pl.pmax - p) with hcase | hcase
      · exact absurd (min_eq_left hcase) hcontr
      · rw [min_eq_right hcase] at hpeq
        rw [hpeq]
        linarith [sub_twentieth_lt_round10 (pl.pmax - p)]
  intro hap2
  have hlt : (greedyStep pl p r).1 < pl.pmax := by
    rcases lt_or_le (greedyStep pl p r).1 pl.pmax with hl | hl
    · exact hl
    · exact absurd (Or.inr hl) hap2.1
  have h3 := hap2.2.2
  rw [rawInc_run (ne_of_gt hppos)] at h3
  have h4 : min r2 (pl.pmax - (greedyStep pl p r).1) ≤ pl.pmax - (greedyStep pl p r).1 :=
    min_le_right _ _
  have h5 := round10_le_add_twentieth (min r2 (pl.pmax - (greedyStep pl p r).1))
  norm_num at h3 ⊢
  linarith

theorem greedyPass_length {ps : List Plant} {qs : List ℚ} {r : ℚ}
    (hlen : qs.length = ps.length) : (greedyPass ps qs r).1.length = ps.length := by
  induction ps generalizing qs r with
  | nil => simp [greedyPass]
  | cons pl ps ih =>
    cases qs with
    | nil => simp at hlen
    | cons p qs =>
      simp only [List.length_cons, Nat.succ_inj] at hlen
      rw [greedyPass]
      split
      · simpa using hlen
      · simpa using ih hlen

/-- A pass that made no progress changed nothing. -/
theorem greedyPass_no_progress {ps : List Plant} {qs : List ℚ} {r : ℚ}
    (h : (greedyPass ps qs r).2.2 = false) :
    (greedyPass ps qs r).2.1 = r ∧ (qs.length = ps.length → (greedyPass ps qs r).1 = qs) := by
  induction ps generalizing qs r with
  | nil =>
    refine ⟨by simp [greedyPass], fun hlen => ?_⟩
    have hq : qs = [] := List.length_eq_zero.mp (by simpa using hlen)
    subst hq
    simp [greedyPass]
  | cons pl ps ih =>
    cases qs with
    | nil => exact ⟨by simp [greedyPass], by simp⟩
    | cons p qs =>
      rw [greedyPass] at h ⊢
      by_cases happ : stepApplies pl p r
      · exfalso
        have hb := greedyStep_bool.2 happ
        split at h
        · simp at h
        · simp [hb] at h
      · rw [greedyStep_not_applied happ] at h ⊢
        simp only [show ((false = true ∧ (r : ℚ) ≤ 0.1) = False) by simp, if_false] at h ⊢
        simp only [Bool.false_or] at h
        obtain ⟨hr, hq⟩ := ih h
        refine ⟨hr, fun hlen => ?_⟩
        simp only [List.length_cons, Nat.succ_inj] at hlen
        simp [hq hlen]

/-- After a completed pass that left more than 0.1 of load (no break), a
second pass cannot make progress: every unit it applied has negligible
headroom left, and every unit it skipped is skipped again at the now
smaller remaining load.  This is why the greedy loop effectively stops
after its first pass. -/
theorem greedyPass_stall (ps : List Plant) (qs : List ℚ) (r : ℚ)
    (hinv : ∀ x ∈ ps.zip qs, ¬x.1.type = "windturbine" → onGrid x.2 ∧ 0 ≤ x.2)
    (hr1 : 0.1 < (greedyPass ps qs r).2.1) :
    (greedyPass ps (greedyPass ps qs r).1 (greedyPass ps qs r).2.1).2.2 = false := by
  induction ps generalizing qs r with
  | nil => simp [greedyPass]
  | cons pl ps ih =>
    cases qs with
    | nil => simp [greedyPass]
    | cons p qs =>
      by_cases hbreak : ((greedyStep pl p r).2.2 = true ∧ (greedyStep pl p r).2.1 ≤ 0.1)
      · have hpass1 : greedyPass (pl :: ps) (p :: qs) r =
            ((greedyStep pl p r).1 :: qs, (greedyStep pl p r).2.1, true) := by
          rw [greedyPass, if_pos hbreak]
        rw [hpass1] at hr1
        exact absurd hbreak.2 (by dsimp only at hr1; linarith)
      · have hpass1 : greedyPass (pl :: ps) (p :: qs) r =
            ((greedyStep pl p r).1 :: (greedyPass ps qs (greedyStep pl p r).2.1).1,
             (greedyPass ps qs (greedyStep pl p r).2.1).2.1,
             (greedyStep pl p r).2.2 || (greedyPass ps qs (greedyStep pl p r).2.1).2.2) := by
          rw [greedyPass, if_neg hbreak]
        rw [hpass1] at hr1 ⊢
        dsimp only at hr1 ⊢
        have htail : ∀ x ∈ ps.zip qs, ¬x.1.type = "windturbine" → onGrid x.2 ∧ 0 ≤ x.2 :=
          fun x hx => hinv x (by simp [hx])
        have hd : ¬stepApplies pl (greedyStep pl p r).1
            (greedyPass ps qs (greedyStep pl p r).2.1).2.1 := by
          by_cases happ : stepApplies pl p r
          · have hw : ¬pl.type = "windturbine" := fun hw => happ.1 (Or.inl hw)
            have hpp := hinv (pl, p) (by simp) hw
            have hsnb : 0.1 < (greedyStep pl p r).2.1 :=
              lt_of_lt_of_le hr1 (greedyPass_r_le ps qs _)
            exact greedyStep_dead hpp.1 hpp.2 happ hsnb _
          · rw [greedyStep_not_applied happ]
            dsimp only
            apply stepApplies_mono happ
            have := greedyPass_r_le ps qs (greedyStep pl p r).2.1
            rw [greedyStep_not_applied happ] at this
            exact this
        rw [greedyPass, greedyStep_not_applied hd]
        rw [if_neg (by simp)]
        dsimp only
        rw [Bool.false_or]
        exact ih qs (greedyStep pl p r).2.1 htail hr1

theorem greedyLoop_not_run {ps : List Plant} {qs : List ℚ} {r : ℚ} (h : ¬0.1 < r) :
    greedyLoop ps qs r = (qs, r, 0) := by
  rw [greedyLoop, dif_neg h]

/-- Collapse of the greedy loop: when it runs at all, its final plan and
remaining load are those of the very first pass; it executes a second
pass only to discover that no further progress is possible (two passes
exactly when the first pass progressed yet left more than 0.1). -/
theorem greedyLoop_eq_pass (ps : List Plant) (qs : List ℚ) (r : ℚ)
    (hlen : qs.length = ps.length)
    (hinv : ∀ x ∈ ps.zip qs, ¬x.1.type = "windturbine" → onGrid x.2 ∧ 0 ≤ x.2)
    (h : 0.1 < r) :
    greedyLoop ps qs r =
      ((greedyPass ps qs r).1, (greedyPass ps qs r).2.1,
       if (greedyPass ps qs r).2.2 = true ∧ 0.1 < (greedyPass ps qs r).2.1 then 2 else 1) := by
  rw [greedyLoop, dif_pos h]
  by_cases hp : (greedyPass ps qs r).2.2 = true
  · rw [dif_pos hp]
    by_cases h2 : 0.1 < (greedyPass ps qs r).2.1
    · rw [dif_pos h2]
      have hstall := greedyPass_stall ps qs r hinv h2
      have hlen1 : (greedyPass ps qs r).1.length = ps.length := greedyPass_length hlen
      have hnp := greedyPass_no_progress hstall
      have hinner : greedyLoop ps (greedyPass ps qs r).1 (greedyPass ps qs r).2.1 =
          ((greedyPass ps qs r).1, (greedyPass ps qs r).2.1, 1) := by
        rw [greedyLoop, dif_pos h2, dif_neg (by simp [hstall])]
        rw [hnp.1, hnp.2 hlen1]
      rw [hinner]
      dsimp only
      rw [if_pos ⟨hp, h2⟩]
    · rw [dif_neg h2, if_neg (by tauto)]
  · rw [dif_neg hp, if_neg (by tauto)]

theorem forall₂_zip_refl {R : Plant → ℚ → ℚ → Prop} (hrefl : ∀ pl p, R pl p p) :
    ∀ (ps : List Plant) (qs : List ℚ), qs.length = ps.length →
      List.Forall₂ (fun x q => R x.1 x.2 q) (ps.zip qs) qs
  | [], [], _ => by simp
  | [], _ :: _, h => by simp at h
  | _ :: _, [], h => by simp at h
  | pl :: ps, p :: qs, h => by
    refine List.Forall₂.cons (hrefl pl p) (forall₂_zip_refl hrefl ps qs ?_)
    simpa using h

/-- Elementwise invariant transfer through one greedy pass: an arbitrary
relation `R` between the incoming and outgoing entry of each plant, and a
predicate `Q` on the remaining load, both preserved by an applied step,
hold of the pass output. -/
theorem greedyPass_zip {Q : ℚ → Prop} {R : Plant → ℚ → ℚ → Prop} :
    ∀ (ps : List Plant) (qs : List ℚ) (r : ℚ),
      (∀ pl ∈ ps, ∀ p r, Q r → stepApplies pl p r → Q (greedyStep pl p r).2.1) →
      (∀ pl ∈ ps, ∀ p r, Q r → stepApplies pl p r → R pl p (greedyStep pl p r).1) →
      (∀ pl p, R pl p p) → Q r → qs.length = ps.length →
      List.Forall₂ (fun x q => R x.1 x.2 q) (ps.zip qs) (greedyPass ps qs r).1 ∧
        Q (greedyPass ps qs r).2.1
  | [], [], r, _, _, _, hq, _ => by simpa [greedyPass] using hq
  | [], _ :: _, _, _, _, _, _, h => by simp at h
  | _ :: _, [], _, _, _, _, _, h => by simp at h
  | pl :: ps, p :: qs, r, hQ, hR, hrefl, hq, hlen => by
    have hlen' : qs.length = ps.length := by simpa using hlen
    have hRhead : R pl p (greedyStep pl p r).1 := by
      by_cases happ : stepApplies pl p r
      · exact hR pl (by simp) p r hq happ
      · rw [greedyStep_not_applied happ]; exact hrefl pl p
    have hQhead : Q (greedyStep pl p r).2.1 := by
      by_cases happ : stepApplies pl p r
      · exact hQ pl (by simp) p r hq happ
      · rw [greedyStep_not_applied happ]; exact hq
    rw [greedyPass]
    split
    · exact ⟨List.Forall₂.cons hRhead (forall₂_zip_refl hrefl ps qs hlen'), hQhead⟩
    · have htail := greedyPass_zip ps qs (greedyStep pl p r).2.1
        (fun a ha => hQ a (by simp [ha])) (fun a ha => hR a (by simp [ha]))
        hrefl hQhead hlen'
      exact ⟨List.Forall₂.cons hRhead htail.1, htail.2⟩

/-- The remaining load after a pass never falls below `min r 0`: applied
increments leave it nonnegative, skipped units leave it unchanged. -/
theorem greedyPass_r_lb : ∀ (ps : List Plant) (qs : List ℚ) (r : ℚ),
    min r 0 ≤ (greedyPass ps qs r).2.1
  | [], qs, r => by simp [greedyPass, min_le_left]
  | _ :: _, [], r => by simp [greedyPass, min_le_left]
  | pl :: ps, p :: qs, r => by
    have hhead : min r 0 ≤ (greedyStep pl p r).2.1 ∧ min (greedyStep pl p r).2.1 0 ≤ (greedyStep pl p r).2.1 := by
      by_cases happ : stepApplies pl p r
      · have h0 := greedyStep_applied_r_nonneg happ
        exact ⟨le_trans (min_le_right _ _) h0, le_trans (min_le_right _ _) h0⟩
      · rw [greedyStep_not_applied happ]
        exact ⟨min_le_left _ _, min_le_left _ _⟩
    rw [greedyPass]
    split
    · exact hhead.1
    · have htail := greedyPass_r_lb ps qs (greedyStep pl p r).2.1
      have hmin : min r 0 ≤ min (greedyStep pl p r).2.1 0 := by
        by_cases happ : stepApplies pl p r
        · rw [min_eq_right (greedyStep_applied_r_nonneg happ)]
          exact min_le_right _ _
        · rw [greedyStep_not_applied happ]
      exact le_trans hmin htail

/-- Sum conservation through one pass, up to a single rounding drift `e`:
the drift is at most half the granularity in absolute value and vanishes
whenever the remaining load is itself on the grid (which it is from the
first applied increment onwards). -/
theorem greedyPass_drift : ∀ (ps : List Plant) (qs : List ℚ) (r : ℚ),
    (∀ q ∈ qs, onGrid q) → qs.length = ps.length →
    ∃ e : ℚ, (greedyPass ps qs r).1.sum + (greedyPass ps qs r).2.1 = qs.sum + r + e ∧
      -(1 / 20) < e ∧ e ≤ 1 / 20 ∧ (onGrid r → e = 0)
  | [], [], r, _, _ => ⟨0, by simp [greedyPass], by norm_num, by norm_num, fun _ => rfl⟩
  | [], _ :: _, _, _, h => by simp at h
  | _ :: _, [], _, _, h => by simp at h
  | pl :: ps, p :: qs, r, hqs, hlen => by
    have hp : onGrid p := hqs p (by simp)
    have hqs' : ∀ q ∈ qs, onGrid q := fun q hq => hqs q (by simp [hq])
    have hlen' : qs.length = ps.length := by simpa using hlen
    by_cases happ : stepApplies pl p r
    · have hs1 : (greedyStep pl p r).1 = p + round10 (rawInc pl p r) :=
        greedyStep_applied_p_eq hp happ
      have hs2 : (greedyStep pl p r).2.1 = round10 (r - round10 (rawInc pl p r)) := by
        rw [greedyStep_applied happ]
      have hgr : onGrid (greedyStep pl p r).2.1 := greedyStep_applied_r_grid happ
      have he0a : -(1 / 20) < (greedyStep pl p r).2.1 - (r - round10 (rawInc pl p r)) := by
        rw [hs2]
        linarith [sub_twentieth_lt_round10 (r - round10 (rawInc pl p r))]
      have he0b : (greedyStep pl p r).2.1 - (r - round10 (rawInc pl p r)) ≤ 1 / 20 := by
        rw [hs2]
        linarith [round10_le_add_twentieth (r - round10 (rawInc pl p r))]
      have he0z : onGrid r →
          (greedyStep pl p r).2.1 - (r - round10 (rawInc pl p r)) = 0 := by
        intro hr
        rw [hs2, round10_eq_self (onGrid_sub hr (round10_grid _))]
        ring
      rw [greedyPass]
      split
      · refine ⟨(greedyStep pl p r).2.1 - (r - round10 (rawInc pl p r)), ?_, he0a, he0b, he0z⟩
        dsimp only
        rw [List.sum_cons, List.sum_cons, hs1]
        ring
      · obtain ⟨e₁, hsum1, -, -, hz1⟩ := greedyPass_drift ps qs (greedyStep pl p r).2.1 hqs' hlen'
        rw [hz1 hgr, add_zero] at hsum1
        refine ⟨(greedyStep pl p r).2.1 - (r - round10 (rawInc pl p r)), ?_, he0a, he0b, he0z⟩
        dsimp only
        rw [List.sum_cons, List.sum_cons, hs1]
        linarith [hsum1]
    · have hs := greedyStep_not_applied happ
      rw [greedyPass, hs]
      rw [if_neg (by simp)]
      dsimp only
      obtain ⟨e₁, hsum1, ha, hb, hz⟩ := greedyPass_drift ps qs r hqs' hlen'
      exact ⟨e₁, by rw [List.sum_cons, List.sum_cons]; linarith, ha, hb, hz⟩

theorem windPass_length : ∀ (ps : List Plant) (r : ℚ), (windPass ps r).1.length = ps.length
  | [], r => rfl
  | pl :: ps, r => by
    rw [windPass]
    split
    · simpa using windPass_length ps _
    · simpa using windPass_length ps _

/-- The wind pass conserves the quantity (allocated sum + remaining load)
exactly: each production is subtracted from the remaining load as is. -/
theorem windPass_sum : ∀ (ps : List Plant) (r : ℚ),
    (windPass ps r).1.sum + (windPass ps r).2 = r
  | [], r => by simp [windPass]
  | pl :: ps, r => by
    rw [windPass]
    split
    · dsimp only
      rw [List.sum_cons]
      have := windPass_sum ps (r - round10 (min pl.available_power r))
      linarith
    · dsimp only
      rw [List.sum_cons]
      have := windPass_sum ps r
      linarith

/-- Elementwise facts about the wind pass output: non-wind entries are 0,
every entry is on the grid, and a wind entry with a well-formed
availability lies between 0 and that availability. -/
theorem windPass_entries : ∀ (ps : List Plant) (r : ℚ),
    List.Forall₂ (fun pl q => (¬pl.type = "windturbine" → q = 0) ∧ onGrid q ∧
      (0 ≤ pl.available_power ∧ onGrid pl.available_power → 0 ≤ q ∧ q ≤ pl.available_power))
      ps (windPass ps r).1
  | [], r => by simp [windPass]
  | pl :: ps, r => by
    rw [windPass]
    split
    · next hcond =>
      refine List.Forall₂.cons ⟨fun hn => absurd hcond.1 hn, round10_grid _, fun hav => ?_⟩
        (windPass_entries ps _)
      constructor
      · exact round10_nonneg (le_min hav.1 (le_of_lt hcond.2))
      · calc round10 (min pl.available_power r) ≤ round10 pl.available_power :=
              round10_mono (min_le_left _ _)
          _ = pl.available_power := round10_eq_self hav.2
    · exact List.Forall₂.cons ⟨fun _ => rfl, onGrid_zero, fun hav => ⟨le_refl 0, hav.1⟩⟩
        (windPass_entries ps _)

/-- The wind pass can undershoot zero only by the rounding margin. -/
theorem windPass_r_lb : ∀ (ps : List Plant) (r : ℚ), -(1 / 20) ≤ r →
    -(1 / 20) ≤ (windPass ps r).2
  | [], r, h => h
  | pl :: ps, r, h => by
    rw [windPass]
    split
    · next hcond =>
      refine windPass_r_lb ps _ ?_
      have h1 : round10 (min pl.available_power r) ≤ round10 r := round10_mono (min_le_right _ _)
      have h2 := round10_le_add_twentieth r
      linarith
    · exact windPass_r_lb ps r h

/-- Grid case of the wind pass: the remaining load stays on the grid and
stays nonnegative. -/
theorem windPass_grid : ∀ (ps : List Plant) (r : ℚ), onGrid r →
    (∀ pl ∈ ps, onGrid pl.available_power) →
    onGrid (windPass ps r).2 ∧ (0 ≤ r → 0 ≤ (windPass ps r).2)
  | [], r, hr, _ => ⟨hr, fun h => h⟩
  | pl :: ps, r, hr, hav => by
    have havh : onGrid pl.available_power := hav pl (by simp)
    have havt : ∀ a ∈ ps, onGrid a.available_power := fun a ha => hav a (by simp [ha])
    rw [windPass]
    split
    · next hcond =>
      have hprod : round10 (min pl.available_power r) = min pl.available_power r :=
        round10_eq_self (onGrid_min havh hr)
      have hgrid' : onGrid (r - round10 (min pl.available_power r)) := by
        rw [hprod]; exact onGrid_sub hr (onGrid_min havh hr)
      have ih := windPass_grid ps _ hgrid' havt
      refine ⟨ih.1, fun h0 => ih.2 ?_⟩
      rw [hprod]
      have := min_le_right pl.available_power r
      linarith
    · exact windPass_grid ps r hr havt

theorem onGrid_pos_tenth {p : ℚ} (hg : onGrid p) (hp : 0 < p) : 0.1 ≤ p := by
  obtain ⟨k, rfl⟩ := hg
  have hk : 0 < k := by
    by_contra hk
    push_neg at hk
    have : (k : ℚ) ≤ 0 := by exact_mod_cast hk
    have : (k : ℚ) / 10 ≤ 0 := by linarith
    linarith
  have : (1 : ℚ) ≤ (k : ℚ) := by exact_mod_cast hk
  rw [show (0.1 : ℚ) = 1 / 10 by norm_num]
  linarith

/-- If the reverse scan of the final adjustment finds no eligible entry,
the plan is returned unchanged. -/
theorem residual_adjust_not_found : ∀ (ps : List Plant) (qs : List ℚ) (d : ℚ),
    (residual_adjust ps qs d).2 = false → (residual_adjust ps qs d).1 = qs
  | [], [], _, _ => by simp [residual_adjust]
  | _ :: _, [], _, _ => by simp [residual_adjust]
  | [], _ :: _, _, _ => by simp [residual_adjust]
  | pl :: ps, p :: qs, d, h => by
    rw [residual_adjust] at h ⊢
    by_cases h1 : (residual_adjust ps qs d).2 = true
    · rw [if_pos h1] at h; simp at h
    · rw [if_neg h1] at h ⊢
      by_cases h2 : 0 < p ∧ pl.pmin ≤ p + d ∧ p + d ≤ pl.pmax
      · rw [if_pos h2] at h; simp at h
      · rw [if_neg h2]

theorem residual_adjust_length : ∀ (ps : List Plant) (qs : List ℚ) (d : ℚ),
    (residual_adjust ps qs d).1.length = qs.length ∨ (residual_adjust ps qs d).1 = qs
  | [], [], _ => Or.inl rfl
  | _ :: _, [], _ => by simp [residual_adjust]
  | [], _ :: _, _ => by simp [residual_adjust]
  | pl :: ps, p :: qs, d => by
    rw [residual_adjust]
    by_cases h1 : (residual_adjust ps qs d).2 = true
    · rw [if_pos h1]
      rcases residual_adjust_length ps qs d with h | h
      · left; simpa using h
      · left; simp [h]
    · rw [if_neg h1]
      by_cases h2 : 0 < p ∧ pl.pmin ≤ p + d ∧ p + d ≤ pl.pmax
      · rw [if_pos h2]; left; simp
      · rw [if_neg h2]; right; rfl

/-- Elementwise description of the final adjustment: every entry is
either unchanged, or was a positive entry whose adjusted value passed the
[pmin, pmax] check and was replaced by the rounded adjusted value. -/
theorem residual_adjust_zip : ∀ (ps : List Plant) (qs : List ℚ) (d : ℚ),
    qs.length = ps.length →
    List.Forall₂ (fun x q => q = x.2 ∨
        (0 < x.2 ∧ x.1.pmin ≤ x.2 + d ∧ x.2 + d ≤ x.1.pmax ∧ q = round10 (x.2 + d)))
      (ps.zip qs) (residual_adjust ps qs d).1
  | [], [], _, _ => by simp [residual_adjust]
  | _ :: _, [], _, _ => by simp [residual_adjust]
  | [], _ :: _, _, h => by simp at h
  | pl :: ps, p :: qs, d, h => by
    have h' : qs.length = ps.length := by simpa using h
    rw [residual_adjust]
    by_cases h1 : (residual_adjust ps qs d).2 = true
    · rw [if_pos h1]
      exact List.Forall₂.cons (Or.inl rfl) (residual_adjust_zip ps qs d h')
    · rw [if_neg h1]
      by_cases h2 : 0 < p ∧ pl.pmin ≤ p + d ∧ p + d ≤ pl.pmax
      · rw [if_pos h2]
        refine List.Forall₂.cons (Or.inr ⟨h2.1, h2.2.1, h2.2.2, rfl⟩) ?_
        exact @forall₂_zip_refl (fun pl2 p2 q2 => q2 = p2 ∨
          (0 < p2 ∧ pl2.pmin ≤ p2 + d ∧ p2 + d ≤ pl2.pmax ∧ q2 = round10 (p2 + d)))
          (fun _ _ => Or.inl rfl) ps qs h'
      · rw [if_neg h2]
        exact List.Forall₂.cons (Or.inl rfl)
          (@forall₂_zip_refl (fun pl2 p2 q2 => q2 = p2 ∨
            (0 < p2 ∧ pl2.pmin ≤ p2 + d ∧ p2 + d ≤ pl2.pmax ∧ q2 = round10 (p2 + d)))
            (fun _ _ => Or.inl rfl) ps qs h')

theorem sortedInsert_perm (a : Plant) : ∀ l : List Plant, (sortedInsert a l).Perm (a :: l)
  | [] => List.Perm.refl _
  | b :: bs => by
    rw [sortedInsert]
    split
    · exact ((sortedInsert_perm a bs).cons b).trans (List.Perm.swap a b bs)
    · exact List.Perm.refl _

theorem foldl_sortedInsert_perm : ∀ (l acc : List Plant),
    (List.foldl (fun acc a => sortedInsert a acc) acc l).Perm (acc ++ l)
  | [], acc => by simp
  | a :: l, acc => by
    rw [List.foldl_cons]
    refine (foldl_sortedInsert_perm l (sortedInsert a acc)).trans ?_
    refine ((sortedInsert_perm a acc).append_right l).trans ?_
    rw [List.cons_append]
    exact List.perm_middle.symm

/-- The merit-order sort permutes the plant list. -/
theorem sortPlants_perm (l : List Plant) : (sortPlants l).Perm l := by
  have h := foldl_sortedInsert_perm l []
  simpa [sortPlants] using h

theorem meritLE_total (a b : Plant) : meritLE a b = true ∨ meritLE b a = true := by
  unfold meritLE
  simp only [decide_eq_true_eq]
  rcases lt_trichotomy a.cost_per_mwh b.cost_per_mwh with h | h | h
  · exact Or.inl (Or.inl h)
  · rcases le_total b.available_power a.available_power with h2 | h2
    · exact Or.inl (Or.inr ⟨h, h2⟩)
    · exact Or.inr (Or.inr ⟨h.symm, h2⟩)
  · exact Or.inr (Or.inl h)

theorem meritLE_trans {a b c : Plant} (h1 : meritLE a b = true) (h2 : meritLE b c = true) :
    meritLE a c = true := by
  unfold meritLE at h1 h2 ⊢
  simp only [decide_eq_true_eq] at h1 h2 ⊢
  rcases h1 with h1 | h1 <;> rcases h2 with h2 | h2
  · exact Or.inl (h1.trans h2)
  · exact Or.inl (h2.1 ▸ h1)
  · exact Or.inl (h1.1 ▸ h2)
  · exact Or.inr ⟨h1.1.trans h2.1, le_trans h2.2 h1.2⟩

theorem sortedInsert_pairwise (a : Plant) :
    ∀ l : List Plant, l.Pairwise (fun x y => meritLE x y = true) →
      (sortedInsert a l).Pairwise (fun x y => meritLE x y = true)
  | [], _ => by simp [sortedInsert]
  | b :: bs, h => by
    rw [sortedInsert]
    rw [List.pairwise_cons] at h
    split
    · next hba =>
      rw [List.pairwise_cons]
      refine ⟨fun x hx => ?_, sortedInsert_pairwise a bs h.2⟩
      rcases List.mem_cons.1 (((sortedInsert_perm a bs).mem_iff).1 hx) with rfl | hx2
      · exact hba
      · exact h.1 x hx2
    · next hba =>
      have hab : meritLE a b = true := (meritLE_total a b).resolve_right (by simpa using hba)
      rw [List.pairwise_cons]
      refine ⟨fun x hx => ?_, List.pairwise_cons.2 ⟨h.1, h.2⟩⟩
      rcases List.mem_cons.1 hx with rfl | hx2
      · exact hab
      · exact meritLE_trans hab (h.1 x hx2)

theorem foldl_sortedInsert_pairwise : ∀ (l acc : List Plant),
    acc.Pairwise (fun x y => meritLE x y = true) →
    (List.foldl (fun acc a => sortedInsert a acc) acc l).Pairwise
      (fun x y => meritLE x y = true)
  | [], _, h => h
  | a :: l, acc, h =>
    foldl_sortedInsert_pairwise l (sortedInsert a acc) (sortedInsert_pairwise a acc h)

/-- The merit-order sort yields a list sorted by its key: ascending
cost, ties broken by descending available capacity. -/
theorem sortPlants_sorted (l : List Plant) :
    (sortPlants l).Pairwise (fun x y => meritLE x y = true) :=
  foldl_sortedInsert_pairwise l [] (by simp)

theorem pyTrunc_nonneg {q : ℚ} (h : 0 ≤ q) : 0 ≤ pyTrunc q := by
  unfold pyTrunc
  rw [if_pos h]
  exact Int.floor_nonneg.2 h

theorem pyTrunc_le {q : ℚ} (h : 0 ≤ q) : (pyTrunc q : ℚ) ≤ q := by
  unfold pyTrunc
  rw [if_pos h]
  exact Int.floor_le q

/-- The fields of a successfully derived plant, in terms of its payload
record. -/
theorem calculate_cost_mkPlant {d : PlantData} {g k c w : ℚ} {pl' : Plant}
    (h : calculate_cost (mkPlant d) g k c w = .ok pl') :
    pl'.name = d.name ∧ pl'.type = d.type ∧ pl'.efficiency = d.efficiency ∧
    pl'.pmin = d.pmin ∧ pl'.pmax = d.pmax ∧
    (d.type = "windturbine" →
      pl'.cost_per_mwh = 0 ∧ pl'.available_power = (pyTrunc (d.pmax * w / 100) : ℚ)) ∧
    (¬d.type = "windturbine" → pl'.available_power = d.pmax ∨ pl'.available_power = 0) := by
  unfold calculate_cost mkPlant at h
  split_ifs at h with h1 h2 h3 h4 h5 <;>
    first
      | (simp only [Except.ok.injEq] at h
         subst h
         simp_all [mkPlant])
      | simp at h

theorem buildPlants_forall₂ {fuels : Fuels} : ∀ {ds : List PlantData} {pls : List Plant},
    buildPlants fuels ds = .ok pls →
    List.Forall₂ (fun d pl =>
      calculate_cost (mkPlant d) fuels.gas fuels.kerosine fuels.co2 fuels.wind = .ok pl) ds pls
  | [], pls, h => by
    rw [buildPlants] at h
    simp only [Except.ok.injEq] at h
    subst h
    exact List.Forall₂.nil
  | d :: ds, pls, h => by
    rw [buildPlants] at h
    split at h
    · simp at h
    · next pl hpl =>
      split at h
      · simp at h
      · next pls' hpls' =>
        simp only [Except.ok.injEq] at h
        subst h
        exact List.Forall₂.cons hpl (buildPlants_forall₂ hpls')

theorem forall₂_map_eq {α β γ : Type} {R : α → β → Prop} {f : α → γ} {g : β → γ} :
    ∀ {l₁ : List α} {l₂ : List β}, List.Forall₂ R l₁ l₂ →
      (∀ a b, R a b → g b = f a) → l₂.map g = l₁.map f
  | _, _, List.Forall₂.nil, _ => rfl
  | _, _, List.Forall₂.cons h t, hf => by
    simp only [List.map_cons, List.cons.injEq]
    exact ⟨hf _ _ h, forall₂_map_eq t hf⟩

theorem buildPlants_names {fuels : Fuels} {ds : List PlantData} {pls : List Plant}
    (h : buildPlants fuels ds = .ok pls) :
    pls.map Plant.name = ds.map PlantData.name :=
  forall₂_map_eq (buildPlants_forall₂ h) (fun d pl hr => (calculate_cost_mkPlant hr).1)

theorem calculate_production_plan_ok {payload : Payload} {plants : List Plant}
    (h : derivedPlants payload = .ok plants) :
    calculate_production_plan payload =
      .ok (optimize_production (sortPlants plants) payload.load) := by
  unfold calculate_production_plan
  rw [h]
  rfl

/-- With no load left to serve, the wind pass leaves everything at zero. -/
theorem windPass_nonpos : ∀ (ps : List Plant) (r : ℚ), r ≤ 0 →
    windPass ps r = (List.replicate ps.length 0, r)
  | [], r, _ => rfl
  | pl :: ps, r, h => by
    rw [windPass, if_neg (by rintro ⟨-, h2⟩; linarith)]
    rw [windPass_nonpos ps r h]
    simp [List.replicate_succ]

theorem onGrid_sum : ∀ {qs : List ℚ}, (∀ q ∈ qs, onGrid q) → onGrid qs.sum
  | [], _ => by simpa using onGrid_zero
  | q :: qs, h => by
    rw [List.sum_cons]
    exact onGrid_add (h q (by simp)) (onGrid_sum fun a ha => h a (by simp [ha]))

/-- With well-typed efficiencies the plant derivation cannot fail. -/
theorem buildPlants_total (fuels : Fuels) : ∀ (ds : List PlantData),
    (∀ d ∈ ds, d.efficiency ≠ 0) → ∃ pls, buildPlants fuels ds = .ok pls
  | [], _ => ⟨[], rfl⟩
  | d :: ds, h => by
    obtain ⟨pls, hpls⟩ := buildPlants_total fuels ds fun a ha => h a (by simp [ha])
    have heff : d.efficiency ≠ 0 := h d (by simp)
    have hok : ∃ pl, calculate_cost (mkPlant d) fuels.gas fuels.kerosine fuels.co2 fuels.wind
        = .ok pl := by
      unfold calculate_cost mkPlant
      split_ifs with h1 h2 h3 h4 h5 <;> first | exact ⟨_, rfl⟩ | exact absurd (by assumption) heff
    obtain ⟨pl, hpl⟩ := hok
    exact ⟨pl :: pls, by rw [buildPlants, hpl, hpls]⟩

/-- A pass that made progress applied some cost-bearing plant. -/
theorem greedyPass_progress_nonwind : ∀ (ps : List Plant) (qs : List ℚ) (r : ℚ),
    (greedyPass ps qs r).2.2 = true → ∃ pl ∈ ps, ¬pl.type = "windturbine"
  | [], _, r, h => by simp [greedyPass] at h
  | _ :: _, [], r, h => by simp [greedyPass] at h
  | pl :: ps, p :: qs, r, h => by
    rw [greedyPass] at h
    by_cases happ : stepApplies pl p r
    · exact ⟨pl, by simp, fun hw => happ.1 (Or.inl hw)⟩
    · rw [greedyStep_not_applied happ] at h
      rw [if_neg (by simp)] at h
      dsimp only at h
      rw [Bool.false_or] at h
      obtain ⟨a, ha, hna⟩ := greedyPass_progress_nonwind ps qs r h
      exact ⟨a, by simp [ha], hna⟩

theorem greedyLoop_length : ∀ (ps : List Plant) (qs : List ℚ) (r : ℚ),
    qs.length = ps.length → (greedyLoop ps qs r).1.length = ps.length := by
  intro ps qs r
  induction qs, r using greedyLoop.induct ps with
  | case1 qs r h hp h2 ih =>
    intro hlen
    rw [greedyLoop, dif_pos h, dif_pos hp, dif_pos h2]
    exact ih (by rw [greedyPass_length hlen])
  | case2 qs r h hp h2 =>
    intro hlen
    rw [greedyLoop, dif_pos h, dif_pos hp, dif_neg h2]
    exact greedyPass_length hlen
  | case3 qs r h hp =>
    intro hlen
    rw [greedyLoop, dif_pos h, dif_neg hp]
    exact greedyPass_length hlen
  | case4 qs r h =>
    intro hlen
    rw [greedyLoop, dif_neg h]
    exact hlen

theorem round10_add_grid (x : ℚ) {g : ℚ} (hg : onGrid g) :
    round10 (x + g) = round10 x + g := by
  obtain ⟨k, rfl⟩ := hg
  unfold round10
  rw [show (x + (k : ℚ) / 10) * 10 = x * 10 + (k : ℚ) by ring]
  rw [round_add_int]
  push_cast
  ring

/-- Closed-form evaluation of `round10` at a concrete point. -/
theorem round10_eq_of (q v : ℚ) (hg : onGrid v) (h1 : v - 1 / 20 ≤ q) (h2 : q < v + 1 / 20) :
    round10 q = v := by
  have h3 : round10 ((q - v) + v) = round10 (q - v) + v := round10_add_grid (q - v) hg
  rw [sub_add_cancel] at h3
  rw [h3, round10_eq_zero (by linarith) (by linarith), zero_add]

theorem windPass_nonwind : ∀ (ps : List Plant) (r : ℚ),
    (∀ pl ∈ ps, ¬pl.type = "windturbine") →
    windPass ps r = (List.replicate ps.length 0, r)
  | [], r, _ => rfl
  | pl :: ps, r, h => by
    rw [windPass, if_neg (fun hc => h pl (by simp) hc.1)]
    rw [windPass_nonwind ps r fun a ha => h a (by simp [ha])]
    simp [List.replicate_succ]

def payload1 : Payload :=
  { load := 480,
    fuels := { gas := 13.4, kerosine := 50.8, co2 := 20, wind := 60 },
    powerplants := [
      ⟨"gasfiredbig1", "gasfired", 0.53, 100, 460⟩,
      ⟨"gasfiredbig2", "gasfired", 0.53, 100, 460⟩,
      ⟨"gasfiredsomewhatsmaller", "gasfired", 0.37, 40, 210⟩,
      ⟨"tj1", "turbojet", 0.3, 0, 16⟩,
      ⟨"windpark1", "windturbine", 1, 0, 150⟩,
      ⟨"windpark2", "windturbine", 1, 0, 36⟩ ] }

def plantA : Plant :=
  ⟨"gasfiredbig1", "gasfired", 0.53, 100, 460, 1940/53, 460⟩
def plantB : Plant :=
  ⟨"gasfiredbig2", "gasfired", 0.53, 100, 460, 1940/53, 460⟩
def plantS : Plant :=
  ⟨"gasfiredsomewhatsmaller", "gasfired", 0.37, 40, 210, 1940/37, 210⟩
def plantT : Plant :=
  ⟨"tj1", "turbojet", 0.3, 0, 16, 508/3, 16⟩
def plantW1 : Plant :=
  ⟨"windpark1", "windturbine", 1, 0, 150, 0, 90⟩
def plantW2 : Plant :=
  ⟨"windpark2", "windturbine", 1, 0, 36, 0, 21⟩

theorem payload1_derived : derivedPlants payload1 =
    .ok [plantA, plantB, plantS, plantT, plantW1, plantW2] := by
  simp [derivedPlants, payload1, buildPlants, calculate_cost, mkPlant, pyTrunc,
    plantA, plantB, plantS, plantT, plantW1, plantW2]
  norm_num

theorem payload1_sorted : sortPlants [plantA, plantB, plantS, plantT, plantW1, plantW2] =
    [plantW1, plantW2, plantA, plantB, plantS, plantT] := by
  norm_num [sortPlants, sortedInsert, meritLE, List.foldl,
    plantA, plantB, plantS, plantT, plantW1, plantW2]

theorem payload1_wind : windPass [plantW1, plantW2, plantA, plantB, plantS, plantT] 480 =
    ([90, 21, 0, 0, 0, 0], 369) := by
  rw [windPass]
  rw [if_pos (by constructor; rfl; norm_num)]
  rw [show round10 (min plantW1.available_power 480) = 90 from
    round10_eq_of _ _ ⟨900, by norm_num⟩ (by norm_num [plantW1]) (by norm_num [plantW1])]
  rw [show (480 : ℚ) - 90 = 390 by norm_num]
  rw [windPass]
  rw [if_pos (by constructor; rfl; norm_num)]
  rw [show round10 (min plantW2.available_power 390) = 21 from
    round10_eq_of _ _ ⟨210, by norm_num⟩ (by norm_num [plantW2]) (by norm_num [plantW2])]
  rw [show (390 : ℚ) - 21 = 369 by norm_num]
  rw [windPass_nonwind [plantA, plantB, plantS, plantT] 369
    (by simp [plantA, plantB, plantS, plantT])]
  simp

theorem payload1_step : greedyStep plantA 0 369 = (369, 0, true) := by
  have happ : stepApplies plantA 0 369 := by
    refine ⟨by simp [plantA], by norm_num [plantA], ?_⟩
    rw [show rawInc plantA 0 369 = 369 by norm_num [rawInc, plantA]]
    rw [show round10 (369:ℚ) = 369 from round10_eq_of _ _ ⟨3690, by norm_num⟩ (by norm_num) (by norm_num)]
    norm_num
  rw [greedyStep_applied happ]
  rw [show rawInc plantA 0 369 = 369 by norm_num [rawInc, plantA]]
  rw [show round10 (369:ℚ) = 369 from round10_eq_of _ _ ⟨3690, by norm_num⟩ (by norm_num) (by norm_num)]
  norm_num [round10_zero]
  exact round10_eq_of _ _ ⟨3690, by norm_num⟩ (by norm_num) (by norm_num)

theorem payload1_pass :
    greedyPass [plantW1, plantW2, plantA, plantB, plantS, plantT] [90, 21, 0, 0, 0, 0] 369 =
    ([90, 21, 369, 0, 0, 0], 0, true) := by
  rw [greedyPass, greedyStep_wind (by rfl)]
  rw [if_neg (by simp)]
  rw [greedyPass, greedyStep_wind (by rfl)]
  rw [if_neg (by simp)]
  rw [greedyPass, payload1_step]
  rw [if_pos (by norm_num)]
  simp

theorem payload1_loop :
    greedyLoop [plantW1, plantW2, plantA, plantB, plantS, plantT] [90, 21, 0, 0, 0, 0] 369 =
    ([90, 21, 369, 0, 0, 0], 0, 1) := by
  rw [greedyLoop, dif_pos (by norm_num : (0.1:ℚ) < 369), payload1_pass]
  norm_num

/-- C9: on the reference request (load 480; gas 13.4, kerosine 50.8, co2 20,
wind 60%; the six units of the test payload) the computation allocates
90 MW to the 150 MW wind unit, 21 MW to the 36 MW wind unit, 369 MW to gas
unit A and 0 MW to the rest; the total is exactly 480, the remaining load
reaches 0 inside the first greedy pass, and the residual correction is not
applied (the plan equals the greedy plan). -/
theorem C9_end_to_end : calculate_production_plan payload1 =
    .ok [("windpark1", 90), ("windpark2", 21), ("gasfiredbig1", 369),
         ("gasfiredbig2", 0), ("gasfiredsomewhatsmaller", 0), ("tj1", 0)] ∧
    (([("windpark1", (90:ℚ)), ("windpark2", 21), ("gasfiredbig1", 369),
       ("gasfiredbig2", 0), ("gasfiredsomewhatsmaller", 0), ("tj1", 0)]).map Prod.snd).sum
      = payload1.load ∧
    (greedyLoop [plantW1, plantW2, plantA, plantB, plantS, plantT]
        (windPass [plantW1, plantW2, plantA, plantB, plantS, plantT] payload1.load).1
        (windPass [plantW1, plantW2, plantA, plantB, plantS, plantT] payload1.load).2).1
      = [90, 21, 369, 0, 0, 0] ∧
    ¬(0.1 < |payload1.load - ([(90:ℚ), 21, 369, 0, 0, 0] : List ℚ).sum|) := by
  have hw : windPass [plantW1, plantW2, plantA, plantB, plantS, plantT] payload1.load =
      ([90, 21, 0, 0, 0, 0], 369) := payload1_wind
  refine ⟨?_, by norm_num [payload1], ?_, by norm_num [payload1]⟩
  · rw [calculate_production_plan_ok payload1_derived, payload1_sorted]
    show Except.ok (optimize_production _ 480) = _
    unfold optimize_production
    rw [payload1_wind]
    rw [payload1_loop]
    norm_num [plantA, plantB, plantS, plantT, plantW1, plantW2]
  · rw [hw, payload1_loop]

/-- C4: the cost model of `calculate_cost`: a wind unit gets zero cost and
availability pmax × windPercentage / 100 truncated toward zero to a whole
MW (`pyTrunc`, which satisfies the truncation bounds below); a gas unit
gets gasPrice/efficiency + (0.3 × co2Price)/efficiency and availability
pmax; a turbojet gets kerosinePrice/efficiency and availability pmax. -/
theorem C4_cost_model (pl pl' : Plant) (g k c w : ℚ)
    (hok : calculate_cost pl g k c w = .ok pl') :
    (pl.type = "windturbine" →
      pl'.cost_per_mwh = 0 ∧ pl'.available_power = (pyTrunc (pl.pmax * w / 100) : ℚ)) ∧
    (pl.type = "gasfired" →
      pl'.cost_per_mwh = g / pl.efficiency + (0.3 * c) / pl.efficiency ∧
      pl'.available_power = pl.pmax) ∧
    (pl.type = "turbojet" →
      pl'.cost_per_mwh = k / pl.efficiency ∧ pl'.available_power = pl.pmax) ∧
    (∀ q : ℚ, 0 ≤ q → (pyTrunc q : ℚ) ≤ q ∧ q - 1 < (pyTrunc q : ℚ)) ∧
    (∀ q : ℚ, q < 0 → q ≤ (pyTrunc q : ℚ) ∧ (pyTrunc q : ℚ) < q + 1) := by
  refine ⟨?_, ?_, ?_, ?_, ?_⟩
  · intro ht
    unfold calculate_cost at hok
    rw [if_pos ht] at hok
    simp only [Except.ok.injEq] at hok
    subst hok
    exact ⟨rfl, rfl⟩
  · intro ht
    unfold calculate_cost at hok
    rw [if_neg (by rw [ht]; decide), if_pos ht] at hok
    split_ifs at hok
    simp only [Except.ok.injEq] at hok
    subst hok
    exact ⟨rfl, rfl⟩
  · intro ht
    unfold calculate_cost at hok
    rw [if_neg (by rw [ht]; decide), if_neg (by rw [ht]; decide), if_pos ht] at hok
    split_ifs at hok
    simp only [Except.ok.injEq] at hok
    subst hok
    exact ⟨rfl, rfl⟩
  · intro q hq
    unfold pyTrunc
    rw [if_pos hq]
    exact ⟨Int.floor_le q, Int.sub_one_lt_floor q⟩
  · intro q hq
    unfold pyTrunc
    rw [if_neg (by linarith)]
    refine ⟨Int.le_ceil q, ?_⟩
    linarith [Int.ceil_lt_add_one q]

theorem C4_witness :
    calculate_cost (mkPlant ⟨"windpark1", "windturbine", 1, 0, 150⟩) 13.4 50.8 20 60 =
      .ok plantW1 ∧
    (plantW1.cost_per_mwh = 0 ∧
      plantW1.available_power =
        (pyTrunc ((mkPlant ⟨"windpark1", "windturbine", 1, 0, 150⟩).pmax * 60 / 100) : ℚ)) := by
  have hok : calculate_cost (mkPlant ⟨"windpark1", "windturbine", 1, 0, 150⟩) 13.4 50.8 20 60 =
      .ok plantW1 := by
    simp [calculate_cost, mkPlant, pyTrunc, plantW1]
    norm_num
  exact ⟨hok, (C4_cost_model _ _ 13.4 50.8 20 60 hok).1 rfl⟩

def cexC1 : Payload :=
  { load := 50, fuels := { gas := 13.4, kerosine := 50.8, co2 := 20, wind := 60 },
    powerplants := [⟨"g", "gasfired", 0.5, 100, 460⟩] }

def cexC1plant : Plant :=
  { name := "g", type := "gasfired", efficiency := 0.5, pmin := 100, pmax := 460,
    cost_per_mwh := 38.8, available_power := 460 }

theorem cexC1_derived : derivedPlants cexC1 = .ok [cexC1plant] := by
  simp [derivedPlants, cexC1, buildPlants, calculate_cost, mkPlant, cexC1plant]
  norm_num

theorem cexC1_sorted : sortPlants [cexC1plant] = [cexC1plant] := by
  simp [sortPlants, sortedInsert]

theorem cexC1_result : calculate_production_plan cexC1 = .ok [("g", 0)] := by
  rw [calculate_production_plan_ok cexC1_derived, cexC1_sorted]
  show Except.ok (optimize_production [cexC1plant] 50) = _
  unfold optimize_production
  have hw : windPass [cexC1plant] (50 : ℚ) = ([0], 50) := by
    simp [windPass, cexC1plant]
  rw [hw]
  have hpass : greedyPass [cexC1plant] [0] 50 = ([0], 50, false) := by
    rw [greedyPass, greedyStep_not_applied (by simp [stepApplies, cexC1plant]; norm_num)]
    simp [greedyPass]
  have hloop : greedyLoop [cexC1plant] [0] 50 = ([0], 50, 1) := by
    rw [greedyLoop, dif_pos (by norm_num : (0.1 : ℚ) < 50), hpass]
    norm_num
  rw [hloop]
  norm_num [residual_adjust, cexC1plant]

/-- C1 is false as stated: on a request whose only unit is a gas plant
with pmin 100 and pmax 460 and a load of 50, the total available capacity
(460) exceeds the load, yet the pmin gate prevents any allocation: the
returned plan sums to 0 and misses the load by 50 MW. -/
theorem C1_counterexample :
    derivedPlants cexC1 = .ok [cexC1plant] ∧
    cexC1.load ≤ totalAvailable [cexC1plant] ∧
    calculate_production_plan cexC1 = .ok [("g", 0)] ∧
    ¬|(([("g", (0:ℚ))]).map Prod.snd).sum - cexC1.load| ≤ 0.1 := by
  refine ⟨cexC1_derived, by norm_num [totalAvailable, cexC1plant, cexC1], cexC1_result, ?_⟩
  norm_num [cexC1]

def cexC2 : Payload :=
  { load := 1000, fuels := { gas := 13.4, kerosine := 50.8, co2 := 20, wind := 60 },
    powerplants := [⟨"g", "gasfired", 0.5, 100, 460⟩] }

theorem cexC2_derived : derivedPlants cexC2 = .ok [cexC1plant] := by
  simp [derivedPlants, cexC2, buildPlants, calculate_cost, mkPlant, cexC1plant]
  norm_num

theorem cexC2_step : greedyStep cexC1plant 0 1000 = (460, 540, true) := by
  have hraw : rawInc cexC1plant 0 1000 = 460 := by norm_num [rawInc, cexC1plant]
  have h460 : round10 (460 : ℚ) = 460 :=
    round10_eq_of _ _ ⟨4600, by norm_num⟩ (by norm_num) (by norm_num)
  have happ : stepApplies cexC1plant 0 1000 := by
    refine ⟨by simp [cexC1plant], by norm_num [cexC1plant], ?_⟩
    rw [hraw, h460]
    norm_num
  rw [greedyStep_applied happ, hraw, h460]
  rw [show (0 : ℚ) + 460 = 460 by norm_num, show (1000 : ℚ) - 460 = 540 by norm_num]
  rw [h460, round10_eq_of 540 540 ⟨5400, by norm_num⟩ (by norm_num) (by norm_num)]

theorem cexC2_pass : greedyPass [cexC1plant] [0] 1000 = ([460], 540, true) := by
  rw [greedyPass, cexC2_step]
  rw [if_neg (by norm_num)]
  simp [greedyPass]

theorem cexC2_pass2 : greedyPass [cexC1plant] [460] 540 = ([460], 540, false) := by
  rw [greedyPass,
    greedyStep_not_applied (fun h => h.1 (Or.inr (by norm_num [cexC1plant])))]
  rw [if_neg (by simp)]
  simp [greedyPass]

theorem cexC2_loop : greedyLoop [cexC1plant] [0] 1000 = ([460], 540, 2) := by
  have hinner : greedyLoop [cexC1plant] [460] 540 = ([460], 540, 1) := by
    rw [greedyLoop, dif_pos (by norm_num : (0.1 : ℚ) < 540), cexC2_pass2]
    norm_num
  rw [greedyLoop, dif_pos (by norm_num : (0.1 : ℚ) < 1000), cexC2_pass]
  norm_num [hinner]

theorem cexC2_result : production_plan cexC2 = (200, some [("g", 460)]) := by
  have hr : calculate_production_plan cexC2 = .ok [("g", 460)] := by
    rw [calculate_production_plan_ok cexC2_derived, cexC1_sorted]
    show Except.ok (optimize_production [cexC1plant] 1000) = _
    unfold optimize_production
    have hw : windPass [cexC1plant] (1000 : ℚ) = ([0], 1000) := by
      simp [windPass, cexC1plant]
    rw [hw, cexC2_loop]
    have hsum : (1000 : ℚ) - ([(460 : ℚ)]).sum = 540 := by norm_num
    rw [hsum, if_pos (by norm_num : (0.1 : ℚ) < |(540 : ℚ)|)]
    rw [show residual_adjust [cexC1plant] [460] 540 = ([460], false) by
      norm_num [residual_adjust, cexC1plant]]
    simp [cexC1plant]
  unfold production_plan
  rw [hr]

/-- C2 is false as stated: on a request whose load (1000) exceeds the
total available capacity (460), the greedy dispatch stalls, and the
computation returns the undersupplied plan as a plain successful result
(HTTP 200 with the plan, no error variant), short of the load by 540 MW;
the result type carries no InsufficientCapacity indication at all. -/
theorem C2_counterexample :
    derivedPlants cexC2 = .ok [cexC1plant] ∧
    totalAvailable [cexC1plant] < cexC2.load ∧
    production_plan cexC2 = (200, some [("g", 460)]) ∧
    (([("g", (460:ℚ))]).map Prod.snd).sum + 0.1 < cexC2.load := by
  refine ⟨cexC2_derived, by norm_num [totalAvailable, cexC1plant, cexC2], cexC2_result, ?_⟩
  norm_num [cexC2]

/-- C2 amended: whatever the relation between capacity and load, a
computation that does not raise returns its plan as a normal success
result (status 200); a stalled, undersupplied dispatch is not
distinguishable from a satisfied one in the returned outcome. -/
theorem C2_amended (payload : Payload) (plan : List (String × ℚ))
    (h : calculate_production_plan payload = .ok plan) :
    production_plan payload = (200, some plan) := by
  unfold production_plan
  rw [h]

theorem C2_amended_witness : production_plan cexC2 = (200, some [("g", 460)]) := by
  have hr : calculate_production_plan cexC2 = .ok [("g", 460)] := by
    have := cexC2_result
    unfold production_plan at this
    split at this
    · next h2 => rw [h2]; simpa using this
    · simp at this
  exact C2_amended cexC2 [("g", 460)] hr

theorem forall₂_mem_right {α β : Type} {R : α → β → Prop} :
    ∀ {l₁ : List α} {l₂ : List β}, List.Forall₂ R l₁ l₂ → ∀ {b}, b ∈ l₂ → ∃ a ∈ l₁, R a b
  | _, _, List.Forall₂.nil, b, hb => by simp at hb
  | _, _, List.Forall₂.cons h t, b, hb => by
    rcases List.mem_cons.1 hb with rfl | hb2
    · exact ⟨_, by simp, h⟩
    · obtain ⟨a, ha, hr⟩ := forall₂_mem_right t hb2
      exact ⟨a, by simp [ha], hr⟩

/-- Every sorted derived plant has grid pmin, pmax and availability
whenever the payload bounds are on the grid. -/
theorem forall₂_zip_mem {R : Plant → ℚ → Prop} {ps : List Plant} {qs : List ℚ}
    (h : List.Forall₂ R ps qs) {x : Plant × ℚ} (hx : x ∈ ps.zip qs) : R x.1 x.2 := by
  obtain ⟨a, b⟩ := x
  exact List.forall₂_zip h hx

theorem sorted_plants_grid {payload : Payload} {plants : List Plant}
    (hok : derivedPlants payload = .ok plants)
    (hgrid : ∀ d ∈ payload.powerplants, onGrid d.pmin ∧ onGrid d.pmax) :
    ∀ pl ∈ sortPlants plants, onGrid pl.pmin ∧ onGrid pl.pmax ∧ onGrid pl.available_power := by
  intro pl hpl
  have hpl2 : pl ∈ plants := (sortPlants_perm plants).mem_iff.1 hpl
  obtain ⟨d, hd, hr⟩ := forall₂_mem_right (buildPlants_forall₂ hok) hpl2
  obtain ⟨-, htype, -, hpmin, hpmax, hwind, hother⟩ := calculate_cost_mkPlant hr
  obtain ⟨h1, h2⟩ := hgrid d hd
  refine ⟨hpmin ▸ h1, hpmax ▸ h2, ?_⟩
  by_cases hw : d.type = "windturbine"
  · rw [(hwind hw).2]
    exact onGrid_intCast _
  · rcases hother hw with h | h
    · rw [h]; exact h2
    · rw [h]; exact onGrid_zero

/-- When the final adjustment is not triggered, the emitted plan is the
greedy plan, and it meets the load within tolerance r1. -/
theorem optimize_no_correction (S : List Plant) (load : ℚ) (P : List ℚ) (r1 : ℚ)
    (hG1 : (greedyLoop S (windPass S load).1 (windPass S load).2).1 = P)
    (hsum : P.sum = load - r1) (h1 : 0 ≤ r1) (h2 : r1 ≤ 0.1) (hlen : P.length = S.length) :
    optimize_production S load = (S.map Plant.name).zip P ∧
      |(((S.map Plant.name).zip P).map Prod.snd).sum - load| ≤ 0.1 := by
  have habs : ¬(0.1 < |load - P.sum|) := by
    rw [hsum]
    rw [show load - (load - r1) = r1 by ring, abs_of_nonneg h1]
    linarith
  constructor
  · unfold optimize_production
    rw [hG1, if_neg habs]
  · rw [List.map_snd_zip _ _ (by rw [List.length_map, hlen])]
    rw [hsum]
    rw [show load - r1 - load = -r1 by ring, abs_neg, abs_of_nonneg h1]
    linarith

/-- C1 amended: when the load and each unit's pmin/pmax are multiples of
0.1 MW and the greedy loop exits with remaining load at most 0.1 (no
stall), the emitted plan meets the load within 0.1 MW. -/
theorem C1_amended (payload : Payload) (plants : List Plant)
    (hok : derivedPlants payload = .ok plants)
    (hload : onGrid payload.load) (h0 : 0 ≤ payload.load)
    (hgrid : ∀ d ∈ payload.powerplants, onGrid d.pmin ∧ onGrid d.pmax)
    (hns : (greedyLoop (sortPlants plants)
        (windPass (sortPlants plants) payload.load).1
        (windPass (sortPlants plants) payload.load).2).2.1 ≤ 0.1) :
    ∃ plan, calculate_production_plan payload = .ok plan ∧
      |(plan.map Prod.snd).sum - payload.load| ≤ 0.1 := by
  have hSg := sorted_plants_grid hok hgrid
  have hWlen : (windPass (sortPlants plants) payload.load).1.length =
      (sortPlants plants).length := windPass_length _ _
  have hWsum := windPass_sum (sortPlants plants) payload.load
  have hWent := windPass_entries (sortPlants plants) payload.load
  have hWgridEnt : ∀ q ∈ (windPass (sortPlants plants) payload.load).1, onGrid q := by
    intro q hq
    obtain ⟨pl, -, hr⟩ := forall₂_mem_right hWent hq
    exact hr.2.1
  have hW2 := windPass_grid (sortPlants plants) payload.load hload
    (fun pl hpl => (hSg pl hpl).2.2)
  have hinv : ∀ x ∈ (sortPlants plants).zip (windPass (sortPlants plants) payload.load).1,
      ¬x.1.type = "windturbine" → onGrid x.2 ∧ 0 ≤ x.2 := by
    intro x hx hnw
    have := forall₂_zip_mem hWent hx
    rw [this.1 hnw]
    exact ⟨onGrid_zero, le_refl 0⟩
  refine ⟨optimize_production (sortPlants plants) payload.load,
    calculate_production_plan_ok hok, ?_⟩
  by_cases hrun : 0.1 < (windPass (sortPlants plants) payload.load).2
  · have hcol := greedyLoop_eq_pass (sortPlants plants)
      (windPass (sortPlants plants) payload.load).1
      (windPass (sortPlants plants) payload.load).2 hWlen hinv hrun
    obtain ⟨e, hsum, -, -, hz⟩ := greedyPass_drift (sortPlants plants)
      (windPass (sortPlants plants) payload.load).1
      (windPass (sortPlants plants) payload.load).2 hWgridEnt hWlen
    rw [hz hW2.1, add_zero] at hsum
    have hr1nn : 0 ≤ (greedyPass (sortPlants plants)
        (windPass (sortPlants plants) payload.load).1
        (windPass (sortPlants plants) payload.load).2).2.1 := by
      have := greedyPass_r_lb (sortPlants plants)
        (windPass (sortPlants plants) payload.load).1
        (windPass (sortPlants plants) payload.load).2
      rw [min_eq_right (hW2.2 h0)] at this
      exact this
    have hns' : (greedyPass (sortPlants plants)
        (windPass (sortPlants plants) payload.load).1
        (windPass (sortPlants plants) payload.load).2).2.1 ≤ 0.1 := by
      rw [hcol] at hns
      exact hns
    have hps : (greedyPass (sortPlants plants)
        (windPass (sortPlants plants) payload.load).1
        (windPass (sortPlants plants) payload.load).2).1.sum =
        payload.load - (greedyPass (sortPlants plants)
          (windPass (sortPlants plants) payload.load).1
          (windPass (sortPlants plants) payload.load).2).2.1 := by
      linarith
    have hres := optimize_no_correction (sortPlants plants) payload.load _ _
      (by rw [hcol]) hps hr1nn hns'
      (by rw [greedyPass_length hWlen])
    rw [hres.1]
    exact hres.2
  · have hG := @greedyLoop_not_run (sortPlants plants)
      ((windPass (sortPlants plants) payload.load).1) _ hrun
    have hns2 : (windPass (sortPlants plants) payload.load).2 ≤ 0.1 := by linarith [not_lt.1 hrun]
    have hres := optimize_no_correction (sortPlants plants) payload.load
      (windPass (sortPlants plants) payload.load).1
      (windPass (sortPlants plants) payload.load).2
      (by rw [hG]) (by linarith) (hW2.2 h0) hns2 hWlen
    rw [hres.1]
    exact hres.2

def witC1 : Payload :=
  { load := 300, fuels := { gas := 13.4, kerosine := 50.8, co2 := 20, wind := 60 },
    powerplants := [⟨"g", "gasfired", 0.5, 100, 460⟩] }

theorem witC1_derived : derivedPlants witC1 = .ok [cexC1plant] := by
  simp [derivedPlants, witC1, buildPlants, calculate_cost, mkPlant, cexC1plant]
  norm_num

theorem witC1_step : greedyStep cexC1plant 0 300 = (300, 0, true) := by
  have hraw : rawInc cexC1plant 0 300 = 300 := by norm_num [rawInc, cexC1plant]
  have h300 : round10 (300 : ℚ) = 300 :=
    round10_eq_of _ _ ⟨3000, by norm_num⟩ (by norm_num) (by norm_num)
  have happ : stepApplies cexC1plant 0 300 := by
    refine ⟨by simp [cexC1plant], by norm_num [cexC1plant], ?_⟩
    rw [hraw, h300]
    norm_num
  rw [greedyStep_applied happ, hraw, h300]
  rw [show (0 : ℚ) + 300 = 300 by norm_num, show (300 : ℚ) - 300 = 0 by norm_num]
  rw [h300, round10_zero]

theorem witC1_loop : greedyLoop [cexC1plant] [0] 300 = ([300], 0, 1) := by
  have hpass : greedyPass [cexC1plant] [0] 300 = ([300], 0, true) := by
    rw [greedyPass, witC1_step]
    rw [if_pos (by norm_num)]
  rw [greedyLoop, dif_pos (by norm_num : (0.1 : ℚ) < 300), hpass]
  norm_num

theorem C1_amended_witness :
    derivedPlants witC1 = .ok [cexC1plant] ∧
    (greedyLoop (sortPlants [cexC1plant]) (windPass (sortPlants [cexC1plant]) witC1.load).1
      (windPass (sortPlants [cexC1plant]) witC1.load).2).2.1 ≤ 0.1 ∧
    (∃ plan, calculate_production_plan witC1 = .ok plan ∧
      |(plan.map Prod.snd).sum - witC1.load| ≤ 0.1) := by
  have hw : windPass (sortPlants [cexC1plant]) witC1.load = ([0], 300) := by
    rw [cexC1_sorted]
    simp [windPass, cexC1plant, witC1]
  have hns : (greedyLoop (sortPlants [cexC1plant])
      (windPass (sortPlants [cexC1plant]) witC1.load).1
      (windPass (sortPlants [cexC1plant]) witC1.load).2).2.1 ≤ 0.1 := by
    rw [hw, cexC1_sorted, witC1_loop]
    norm_num
  refine ⟨witC1_derived, hns, ?_⟩
  exact C1_amended witC1 [cexC1plant] witC1_derived ⟨3000, by norm_num [witC1]⟩
    (by norm_num [witC1])
    (by intro d hd; simp [witC1] at hd; subst hd
        exact ⟨⟨1000, by norm_num⟩, ⟨4600, by norm_num⟩⟩)
    hns

def cexC3 : Payload :=
  { load := 20, fuels := { gas := 13.4, kerosine := 50.8, co2 := 20, wind := 60 },
    powerplants := [⟨"g", "gasfired", 0.5, 0, 100⟩, ⟨"w", "windturbine", 1, 0, 100⟩] }

def cexC3gas : Plant :=
  { name := "g", type := "gasfired", efficiency := 0.5, pmin := 0, pmax := 100,
    cost_per_mwh := 38.8, available_power := 100 }

def cexC3wind : Plant :=
  { name := "w", type := "windturbine", efficiency := 1, pmin := 0, pmax := 100,
    cost_per_mwh := 0, available_power := 60 }

theorem cexC3_derived : derivedPlants cexC3 = .ok [cexC3gas, cexC3wind] := by
  simp [derivedPlants, cexC3, buildPlants, calculate_cost, mkPlant, pyTrunc,
    cexC3gas, cexC3wind]
  norm_num

theorem cexC3_sorted : sortPlants [cexC3gas, cexC3wind] = [cexC3wind, cexC3gas] := by
  norm_num [sortPlants, sortedInsert, meritLE, List.foldl, cexC3gas, cexC3wind]

theorem cexC3_result : calculate_production_plan cexC3 = .ok [("w", 20), ("g", 0)] := by
  rw [calculate_production_plan_ok cexC3_derived, cexC3_sorted]
  show Except.ok (optimize_production [cexC3wind, cexC3gas] 20) = _
  unfold optimize_production
  have hw : windPass [cexC3wind, cexC3gas] (20 : ℚ) = ([20, 0], 0) := by
    rw [windPass]
    rw [if_pos (by constructor; rfl; norm_num)]
    rw [show round10 (min cexC3wind.available_power 20) = 20 from
      round10_eq_of _ _ ⟨200, by norm_num⟩ (by norm_num [cexC3wind]) (by norm_num [cexC3wind])]
    rw [show (20 : ℚ) - 20 = 0 by norm_num]
    rw [windPass_nonwind [cexC3gas] 0 (by simp [cexC3gas])]
    simp
  rw [hw]
  rw [greedyLoop_not_run (by norm_num)]
  norm_num [cexC3wind, cexC3gas]

/-- C3 is false as stated: the returned plan follows merit order, not the
request's unit order.  On a request listing a gas unit before a wind
unit, the response lists the wind unit first. -/
theorem C3_counterexample :
    calculate_production_plan cexC3 = .ok [("w", 20), ("g", 0)] ∧
    ([("w", (20:ℚ)), ("g", 0)]).map Prod.fst ≠ cexC3.powerplants.map PlantData.name := by
  refine ⟨cexC3_result, ?_⟩
  simp [cexC3]

theorem optimize_production_facts (S : List Plant) (load : ℚ) :
    (optimize_production S load).map Prod.fst = S.map Plant.name ∧
    (optimize_production S load).length = S.length := by
  have hWlen := windPass_length S load
  have hGlen := greedyLoop_length S (windPass S load).1 (windPass S load).2 hWlen
  have hlen2 : (if 0.1 < |load - ((greedyLoop S (windPass S load).1 (windPass S load).2).1).sum|
      then (residual_adjust S (greedyLoop S (windPass S load).1 (windPass S load).2).1
        (load - ((greedyLoop S (windPass S load).1 (windPass S load).2).1).sum)).1
      else (greedyLoop S (windPass S load).1 (windPass S load).2).1).length = S.length := by
    split
    · rcases residual_adjust_length S (greedyLoop S (windPass S load).1 (windPass S load).2).1
        (load - ((greedyLoop S (windPass S load).1 (windPass S load).2).1).sum) with h | h
      · rw [h, hGlen]
      · rw [h, hGlen]
    · exact hGlen
  unfold optimize_production
  constructor
  · exact List.map_fst_zip _ _ (by rw [List.length_map, hlen2])
  · rw [List.length_zip, List.length_map, hlen2, min_self]

/-- C3 amended: one entry per input unit, but in merit order: the emitted
names are exactly the merit-sorted plant names (a permutation of the
request's unit names, sorted by ascending cost with ties broken by
descending availability). -/
theorem C3_amended (payload : Payload) (plants : List Plant)
    (hok : derivedPlants payload = .ok plants) :
    ∃ plan, calculate_production_plan payload = .ok plan ∧
      plan.map Prod.fst = (sortPlants plants).map Plant.name ∧
      (plan.map Prod.fst).Perm (payload.powerplants.map PlantData.name) ∧
      (sortPlants plants).Pairwise (fun x y => meritLE x y = true) ∧
      plan.length = payload.powerplants.length := by
  have hfacts := optimize_production_facts (sortPlants plants) payload.load
  refine ⟨_, calculate_production_plan_ok hok, hfacts.1, ?_, sortPlants_sorted plants, ?_⟩
  · rw [hfacts.1, ← buildPlants_names hok]
    exact (sortPlants_perm plants).map Plant.name
  · rw [hfacts.2]
    have h1 : (sortPlants plants).length = plants.length := (sortPlants_perm plants).length_eq
    have h2 : plants.map Plant.name = payload.powerplants.map PlantData.name :=
      buildPlants_names hok
    have h3 : plants.length = payload.powerplants.length := by
      have := congrArg List.length h2
      simpa using this
    rw [h1, h3]

theorem C3_amended_witness :
    derivedPlants cexC3 = .ok [cexC3gas, cexC3wind] ∧
    (∃ plan, calculate_production_plan cexC3 = .ok plan ∧
      plan.map Prod.fst = (sortPlants [cexC3gas, cexC3wind]).map Plant.name ∧
      (plan.map Prod.fst).Perm (cexC3.powerplants.map PlantData.name) ∧
      (sortPlants [cexC3gas, cexC3wind]).Pairwise (fun x y => meritLE x y = true) ∧
      plan.length = cexC3.powerplants.length) :=
  ⟨cexC3_derived, C3_amended cexC3 [cexC3gas, cexC3wind] cexC3_derived⟩

def cexC6plant : Plant :=
  { name := "g", type := "gasfired", efficiency := 0.5, pmin := 0, pmax := 5.27,
    cost_per_mwh := 38.8, available_power := 5.27 }

theorem cexC6_step : greedyStep cexC6plant 0 10 = (5.3, 4.7, true) := by
  have hraw : rawInc cexC6plant 0 10 = 5.27 := by norm_num [rawInc, cexC6plant]
  have h53 : round10 (5.27 : ℚ) = 5.3 :=
    round10_eq_of _ _ ⟨53, by norm_num⟩ (by norm_num) (by norm_num)
  have happ : stepApplies cexC6plant 0 10 := by
    refine ⟨by simp [cexC6plant]; norm_num, by norm_num [cexC6plant], ?_⟩
    rw [hraw, h53]
    norm_num
  rw [greedyStep_applied happ, hraw, h53]
  rw [show (0 : ℚ) + 5.3 = 5.3 by norm_num, show (10 : ℚ) - 5.3 = 4.7 by norm_num]
  rw [round10_eq_of 5.3 5.3 ⟨53, by norm_num⟩ (by norm_num) (by norm_num),
    round10_eq_of 4.7 4.7 ⟨47, by norm_num⟩ (by norm_num) (by norm_num)]

/-- C6 is false as stated: with pmax = 5.27 (not a multiple of 0.1) an
idle unit passing the gate receives the increment round10(5.27) = 5.3,
which exceeds pmax, contradicting the claim's "never exceeding pmax". -/
theorem C6_counterexample :
    stepApplies cexC6plant 0 10 ∧
    greedyStep cexC6plant 0 10 = (5.3, 4.7, true) ∧
    max cexC6plant.pmin 0.1 ≤ min cexC6plant.pmax 10 ∧
    cexC6plant.pmax < (greedyStep cexC6plant 0 10).1 := by
  have hraw : rawInc cexC6plant 0 10 = 5.27 := by norm_num [rawInc, cexC6plant]
  have h53 : round10 (5.27 : ℚ) = 5.3 :=
    round10_eq_of _ _ ⟨53, by norm_num⟩ (by norm_num) (by norm_num)
  have happ : stepApplies cexC6plant 0 10 := by
    refine ⟨by simp [cexC6plant]; norm_num, by norm_num [cexC6plant], ?_⟩
    rw [hraw, h53]
    norm_num
  refine ⟨happ, cexC6_step, by norm_num [cexC6plant], ?_⟩
  rw [cexC6_step]
  norm_num [cexC6plant]

/-- C6 amended: an idle cost-bearing unit below pmax is turned on exactly
when min(pmax, remainingLoad) ≥ max(pmin, 0.1), and the applied increment
is max(min(remainingLoad, pmax), pmin) rounded to the nearest 0.1 MW; the
increment never exceeds pmax by more than 0.05 MW, and never exceeds pmax
at all when pmax is a multiple of 0.1 MW. -/
theorem C6_amended (pl : Plant) (r : ℚ) (hw : ¬pl.type = "windturbine") (hpmax : 0 < pl.pmax) :
    (stepApplies pl 0 r ↔ max pl.pmin 0.1 ≤ min pl.pmax r) ∧
    (stepApplies pl 0 r →
      (greedyStep pl 0 r).1 = round10 (max (min r pl.pmax) pl.pmin) ∧
      (greedyStep pl 0 r).1 ≤ pl.pmax + 1 / 20 ∧
      (onGrid pl.pmax → (greedyStep pl 0 r).1 ≤ pl.pmax) ∧
      (greedyStep pl 0 r).2.2 = true) := by
  have hrawdef : rawInc pl 0 r = max (min r pl.pmax) pl.pmin := by
    unfold rawInc
    rw [if_pos rfl]
  constructor
  · constructor
    · intro h
      have hg := h.2.1
      simpa using hg
    · intro hgate
      refine ⟨?_, by simpa using hgate, ?_⟩
      · rintro (h | h)
        · exact hw h
        · linarith
      · rw [hrawdef]
        have h1 : (0.1 : ℚ) ≤ min pl.pmax r := le_trans (le_max_right _ _) hgate
        have h2 : min pl.pmax r ≤ max (min r pl.pmax) pl.pmin := by
          rw [min_comm]
          exact le_max_left _ _
        exact round10_tenth_le (le_trans h1 h2)
  · intro h
    have hpeq : (greedyStep pl 0 r).1 = round10 (rawInc pl 0 r) := by
      rw [greedyStep_applied_p_eq onGrid_zero h, zero_add]
    have hle : rawInc pl 0 r ≤ pl.pmax := by
      rw [rawInc_idle h]
      exact min_le_right _ _
    refine ⟨by rw [hpeq, hrawdef], ?_, ?_, ?_⟩
    · rw [hpeq]
      linarith [round10_le_add_twentieth (rawInc pl 0 r), round10_mono hle]
    · intro hgridmax
      rw [hpeq]
      calc round10 (rawInc pl 0 r) ≤ round10 pl.pmax := round10_mono hle
        _ = pl.pmax := round10_eq_self hgridmax
    · rw [greedyStep_applied h]

theorem C6_amended_witness :
    ¬cexC1plant.type = "windturbine" ∧ (0 : ℚ) < cexC1plant.pmax ∧
    ((stepApplies cexC1plant 0 1000 ↔ max cexC1plant.pmin 0.1 ≤ min cexC1plant.pmax 1000) ∧
      (stepApplies cexC1plant 0 1000 →
        (greedyStep cexC1plant 0 1000).1 = round10 (max (min 1000 cexC1plant.pmax) cexC1plant.pmin) ∧
        (greedyStep cexC1plant 0 1000).1 ≤ cexC1plant.pmax + 1 / 20 ∧
        (onGrid cexC1plant.pmax → (greedyStep cexC1plant 0 1000).1 ≤ cexC1plant.pmax) ∧
        (greedyStep cexC1plant 0 1000).2.2 = true)) :=
  ⟨by simp [cexC1plant], by norm_num [cexC1plant],
   C6_amended cexC1plant 1000 (by simp [cexC1plant]) (by norm_num [cexC1plant])⟩

theorem residual_adjust_nonpos : ∀ (ps : List Plant) (qs : List ℚ) (d : ℚ),
    (∀ q ∈ qs, ¬(0 < q)) → residual_adjust ps qs d = (qs, false)
  | [], [], _, _ => rfl
  | _ :: _, [], _, _ => rfl
  | [], _ :: _, _, _ => rfl
  | pl :: ps, p :: qs, d, h => by
    rw [residual_adjust]
    rw [residual_adjust_nonpos ps qs d fun q hq => h q (by simp [hq])]
    rw [if_neg (by simp)]
    rw [if_neg (fun hc => h p (by simp) hc.1)]

theorem zip_names_replicate : ∀ S : List Plant,
    (S.map Plant.name).zip (List.replicate S.length (0 : ℚ)) =
      S.map (fun pl => (pl.name, (0 : ℚ)))
  | [] => rfl
  | pl :: S => by
    simp only [List.map_cons, List.length_cons, List.replicate_succ, List.zip_cons_cons]
    rw [zip_names_replicate S]

/-- C10: a request with load ≤ 0 is not rejected: the wind pass and the
greedy loop allocate nothing, the residual correction finds no active
unit, and the computation returns the all-zero plan without error. -/
theorem C10_nonpositive_load (payload : Payload) (hload : payload.load ≤ 0)
    (heff : ∀ d ∈ payload.powerplants, d.efficiency ≠ 0) :
    ∃ plants, derivedPlants payload = .ok plants ∧
      calculate_production_plan payload =
        .ok ((sortPlants plants).map (fun pl => (pl.name, (0 : ℚ)))) := by
  obtain ⟨plants, hok⟩ := buildPlants_total payload.fuels payload.powerplants heff
  refine ⟨plants, hok, ?_⟩
  rw [calculate_production_plan_ok hok]
  unfold optimize_production
  rw [windPass_nonpos (sortPlants plants) payload.load hload]
  rw [greedyLoop_not_run (not_lt.2 (by linarith))]
  have hsum : (List.replicate (sortPlants plants).length (0 : ℚ)).sum = 0 := by
    rw [List.sum_replicate, smul_zero]
  rw [hsum]
  split
  · rw [residual_adjust_nonpos _ _ _
      (fun q hq => by rw [List.eq_of_mem_replicate hq]; norm_num)]
    rw [zip_names_replicate]
  · rw [zip_names_replicate]

def witC10 : Payload :=
  { load := -5, fuels := { gas := 13.4, kerosine := 50.8, co2 := 20, wind := 60 },
    powerplants := [⟨"g", "gasfired", 0.5, 100, 460⟩, ⟨"w", "windturbine", 1, 0, 100⟩] }

theorem C10_witness :
    witC10.load ≤ 0 ∧
    (∃ plants, derivedPlants witC10 = .ok plants ∧
      calculate_production_plan witC10 =
        .ok ((sortPlants plants).map (fun pl => (pl.name, (0 : ℚ))))) :=
  ⟨by norm_num [witC10],
   C10_nonpositive_load witC10 (by norm_num [witC10])
     (by intro d hd; simp [witC10] at hd; rcases hd with h | h <;> (subst h; norm_num))⟩

theorem greedyPass_progress_r_grid : ∀ (ps : List Plant) (qs : List ℚ) (r : ℚ),
    (greedyPass ps qs r).2.2 = true → onGrid (greedyPass ps qs r).2.1
  | [], _, r, h => by simp [greedyPass] at h
  | _ :: _, [], r, h => by simp [greedyPass] at h
  | pl :: ps, p :: qs, r, h => by
    rw [greedyPass] at h ⊢
    by_cases happ : stepApplies pl p r
    · split
      · exact greedyStep_applied_r_grid happ
      · cases hrest : (greedyPass ps qs (greedyStep pl p r).2.1).2.2 with
        | true => exact greedyPass_progress_r_grid ps qs _ hrest
        | false =>
          rw [(greedyPass_no_progress hrest).1]
          exact greedyStep_applied_r_grid happ
    · rw [greedyStep_not_applied happ] at h ⊢
      rw [if_neg (by simp)] at h ⊢
      dsimp only at h ⊢
      rw [Bool.false_or] at h
      exact greedyPass_progress_r_grid ps qs r h

theorem forall₂_zip_trans {R : Plant → ℚ → ℚ → Prop}
    (htrans : ∀ pl p q s, R pl p q → R pl q s → R pl p s) :
    ∀ {ps : List Plant} {qs rs ss : List ℚ},
      List.Forall₂ (fun x q => R x.1 x.2 q) (ps.zip qs) rs →
      List.Forall₂ (fun x q => R x.1 x.2 q) (ps.zip rs) ss →
      List.Forall₂ (fun x q => R x.1 x.2 q) (ps.zip qs) ss := by
  intro ps
  induction ps with
  | nil => intro qs rs ss h1 h2; cases h1; cases h2; exact List.Forall₂.nil
  | cons pl ps ih =>
    intro qs rs ss h1 h2
    cases qs with
    | nil => cases h1; cases h2; exact List.Forall₂.nil
    | cons p qs =>
      cases rs with
      | nil => cases h1
      | cons q rs =>
        cases ss with
        | nil => cases h2
        | cons s ss =>
          cases h1 with
          | cons hh1 ht1 =>
            cases h2 with
            | cons hh2 ht2 =>
              exact List.Forall₂.cons (htrans pl p q s hh1 hh2) (ih ht1 ht2)

/-- Transfer of a step-preserved relation between original and current
entries, and a step-preserved predicate on the remaining load, through
the whole greedy loop. -/
theorem greedyLoop_zip {Q : ℚ → Prop} {R : Plant → ℚ → ℚ → Prop} (ps : List Plant)
    (hQ : ∀ pl ∈ ps, ∀ p r, Q r → stepApplies pl p r → Q (greedyStep pl p r).2.1)
    (hR : ∀ pl ∈ ps, ∀ p r, Q r → stepApplies pl p r → R pl p (greedyStep pl p r).1)
    (hrefl : ∀ pl p, R pl p p)
    (htrans : ∀ pl p q s, R pl p q → R pl q s → R pl p s) :
    ∀ qs r, Q r → qs.length = ps.length →
      List.Forall₂ (fun x q => R x.1 x.2 q) (ps.zip qs) (greedyLoop ps qs r).1 ∧
        Q (greedyLoop ps qs r).2.1 := by
  intro qs r
  induction qs, r using greedyLoop.induct ps with
  | case1 qs r h hp h2 ih =>
    intro hq hlen
    have hpass := greedyPass_zip ps qs r hQ hR hrefl hq hlen
    have hlen2 : (greedyPass ps qs r).1.length = ps.length := greedyPass_length hlen
    have hrec := ih hpass.2 hlen2
    rw [greedyLoop, dif_pos h, dif_pos hp, dif_pos h2]
    exact ⟨forall₂_zip_trans htrans hpass.1 hrec.1, hrec.2⟩
  | case2 qs r h hp h2 =>
    intro hq hlen
    have hpass := greedyPass_zip ps qs r hQ hR hrefl hq hlen
    rw [greedyLoop, dif_pos h, dif_pos hp, dif_neg h2]
    exact hpass
  | case3 qs r h hp =>
    intro hq hlen
    have hpass := greedyPass_zip ps qs r hQ hR hrefl hq hlen
    rw [greedyLoop, dif_pos h, dif_neg hp]
    exact hpass
  | case4 qs r h =>
    intro hq hlen
    rw [greedyLoop, dif_neg h]
    exact ⟨forall₂_zip_refl hrefl ps qs hlen, hq⟩

/-- Sum conservation up to a single rounding drift through the whole
greedy loop. -/
theorem greedyLoop_drift (ps : List Plant) : ∀ (qs : List ℚ) (r : ℚ),
    (∀ q ∈ qs, onGrid q) → qs.length = ps.length →
    ∃ e : ℚ, (greedyLoop ps qs r).1.sum + (greedyLoop ps qs r).2.1 = qs.sum + r + e ∧
      -(1 / 20) < e ∧ e ≤ 1 / 20 ∧ (onGrid r → e = 0) := by
  intro qs r
  induction qs, r using greedyLoop.induct ps with
  | case1 qs r h hp h2 ih =>
    intro hqs hlen
    have hgq : ∀ q ∈ (greedyPass ps qs r).1, onGrid q := by
      intro q hq
      have hzip := (@greedyPass_zip (fun _ => True)
        (fun _ p q => onGrid p → onGrid q) ps qs r
        (fun _ _ _ _ _ _ => trivial)
        (fun pl _ p r _ happ => fun hg => greedyStep_p_grid hg)
        (fun _ _ hg => hg) trivial hlen).1
      obtain ⟨x, hx, hr⟩ := forall₂_mem_right hzip hq
      exact hr (hqs x.2 (List.of_mem_zip hx).2)
    have hlen2 : (greedyPass ps qs r).1.length = ps.length := greedyPass_length hlen
    obtain ⟨e1, hs1, ha1, hb1, hz1⟩ := greedyPass_drift ps qs r hqs hlen
    obtain ⟨e2, hs2, -, -, hz2⟩ := ih hgq hlen2
    rw [hz2 (greedyPass_progress_r_grid ps qs r hp), add_zero] at hs2
    rw [greedyLoop, dif_pos h, dif_pos hp, dif_pos h2]
    exact ⟨e1, by dsimp only; linarith, ha1, hb1, hz1⟩
  | case2 qs r h hp h2 =>
    intro hqs hlen
    obtain ⟨e1, hs1, ha1, hb1, hz1⟩ := greedyPass_drift ps qs r hqs hlen
    rw [greedyLoop, dif_pos h, dif_pos hp, dif_neg h2]
    exact ⟨e1, hs1, ha1, hb1, hz1⟩
  | case3 qs r h hp =>
    intro hqs hlen
    obtain ⟨e1, hs1, ha1, hb1, hz1⟩ := greedyPass_drift ps qs r hqs hlen
    rw [greedyLoop, dif_pos h, dif_neg hp]
    exact ⟨e1, hs1, ha1, hb1, hz1⟩
  | case4 qs r h =>
    intro hqs hlen
    rw [greedyLoop, dif_neg h]
    exact ⟨0, by ring, by norm_num, by norm_num, fun _ => rfl⟩

theorem greedyLoop_r_lb (ps : List Plant) : ∀ (qs : List ℚ) (r : ℚ),
    min r 0 ≤ (greedyLoop ps qs r).2.1 := by
  intro qs r
  induction qs, r using greedyLoop.induct ps with
  | case1 qs r h hp h2 ih =>
    rw [greedyLoop, dif_pos h, dif_pos hp, dif_pos h2]
    refine le_trans ?_ ih
    have h1 := greedyPass_r_lb ps qs r
    rcases le_total (greedyPass ps qs r).2.1 0 with hc | hc
    · rw [min_eq_left hc]
      exact h1
    · rw [min_eq_right hc]
      exact min_le_right _ _
  | case2 qs r h hp h2 =>
    rw [greedyLoop, dif_pos h, dif_pos hp, dif_neg h2]
    exact greedyPass_r_lb ps qs r
  | case3 qs r h hp =>
    rw [greedyLoop, dif_pos h, dif_neg hp]
    exact greedyPass_r_lb ps qs r
  | case4 qs r h =>
    rw [greedyLoop, dif_neg h]
    exact min_le_left _ _

/-- Payload-level validity transfers to the sorted derived plants:
nonnegative pmin below pmax, and for wind units an availability between
0 and pmax. -/
theorem sorted_plants_valid {payload : Payload} {plants : List Plant}
    (hok : derivedPlants payload = .ok plants)
    (hval : ∀ d ∈ payload.powerplants, 0 ≤ d.pmin ∧ d.pmin ≤ d.pmax)
    (hwindpct : 0 ≤ payload.fuels.wind ∧ payload.fuels.wind ≤ 100) :
    ∀ pl ∈ sortPlants plants, (0 ≤ pl.pmin ∧ pl.pmin ≤ pl.pmax) ∧
      (pl.type = "windturbine" → 0 ≤ pl.available_power ∧ pl.available_power ≤ pl.pmax) := by
  intro pl hpl
  have hpl2 : pl ∈ plants := (sortPlants_perm plants).mem_iff.1 hpl
  obtain ⟨d, hd, hr⟩ := forall₂_mem_right (buildPlants_forall₂ hok) hpl2
  obtain ⟨-, htype, -, hpmin, hpmax, hwind, -⟩ := calculate_cost_mkPlant hr
  obtain ⟨h1, h2⟩ := hval d hd
  have hpmax0 : 0 ≤ d.pmax := le_trans h1 h2
  refine ⟨⟨hpmin ▸ h1, by rw [hpmin, hpmax]; exact h2⟩, fun hw => ?_⟩
  have havail := (hwind (htype ▸ hw)).2
  have hq0 : 0 ≤ d.pmax * payload.fuels.wind / 100 :=
    div_nonneg (mul_nonneg hpmax0 hwindpct.1) (by norm_num)
  constructor
  · rw [havail]
    exact_mod_cast pyTrunc_nonneg hq0
  · rw [havail, hpmax]
    refine le_trans (pyTrunc_le hq0) ?_
    have := mul_le_mul_of_nonneg_left hwindpct.2 hpmax0
    linarith

def cexC5 : Payload :=
  { load := 70, fuels := { gas := 13.4, kerosine := 50.8, co2 := 20, wind := 60 },
    powerplants := [⟨"w", "windturbine", 1, 0, 100⟩, ⟨"g", "gasfired", 0.5, 100, 460⟩] }

theorem cexC5_derived : derivedPlants cexC5 = .ok [cexC3wind, cexC1plant] := by
  simp [derivedPlants, cexC5, buildPlants, calculate_cost, mkPlant, pyTrunc,
    cexC3wind, cexC1plant]
  norm_num

theorem cexC5_sorted : sortPlants [cexC3wind, cexC1plant] = [cexC3wind, cexC1plant] := by
  norm_num [sortPlants, sortedInsert, meritLE, List.foldl, cexC3wind, cexC1plant]

theorem cexC5_result : calculate_production_plan cexC5 = .ok [("w", 70), ("g", 0)] := by
  rw [calculate_production_plan_ok cexC5_derived, cexC5_sorted]
  show Except.ok (optimize_production [cexC3wind, cexC1plant] 70) = _
  unfold optimize_production
  have hw : windPass [cexC3wind, cexC1plant] (70 : ℚ) = ([60, 0], 10) := by
    rw [windPass]
    rw [if_pos (by constructor; rfl; norm_num)]
    rw [show round10 (min cexC3wind.available_power 70) = 60 from
      round10_eq_of _ _ ⟨600, by norm_num⟩ (by norm_num [cexC3wind]) (by norm_num [cexC3wind])]
    rw [show (70 : ℚ) - 60 = 10 by norm_num]
    rw [windPass_nonwind [cexC1plant] 10 (by simp [cexC1plant])]
    simp
  rw [hw]
  have hpass : greedyPass [cexC3wind, cexC1plant] [60, 0] 10 = ([60, 0], 10, false) := by
    rw [greedyPass, greedyStep_wind (by rfl)]
    rw [if_neg (by simp)]
    rw [greedyPass, greedyStep_not_applied (by
      intro hap
      have := hap.2.1
      norm_num [cexC1plant] at this)]
    rw [if_neg (by simp)]
    simp [greedyPass]
  have hloop : greedyLoop [cexC3wind, cexC1plant] [60, 0] 10 = ([60, 0], 10, 1) := by
    rw [greedyLoop, dif_pos (by norm_num : (0.1 : ℚ) < 10), hpass]
    norm_num
  rw [hloop]
  have hsum : (70 : ℚ) - ([(60 : ℚ), 0]).sum = 10 := by norm_num
  rw [hsum, if_pos (by norm_num : (0.1 : ℚ) < |(10 : ℚ)|)]
  have hadj : residual_adjust [cexC3wind, cexC1plant] [60, 0] 10 = ([70, 0], true) := by
    rw [residual_adjust]
    rw [show residual_adjust [cexC1plant] [0] 10 = ([0], false) by
      norm_num [residual_adjust, cexC1plant]]
    rw [if_neg (by simp)]
    rw [if_pos (by norm_num [cexC3wind])]
    rw [round10_eq_of (60 + 10) 70 ⟨700, by norm_num⟩ (by norm_num) (by norm_num)]
  rw [hadj]
  simp [cexC3wind, cexC1plant]

def cexC5b : Payload :=
  { load := 50, fuels := { gas := 13.4, kerosine := 50.8, co2 := 20, wind := 60 },
    powerplants := [⟨"g", "gasfired", 0.5, 0, 5.27⟩] }

theorem cexC5b_derived : derivedPlants cexC5b = .ok [cexC6plant] := by
  simp [derivedPlants, cexC5b, buildPlants, calculate_cost, mkPlant, cexC6plant]
  norm_num

theorem cexC5b_sorted : sortPlants [cexC6plant] = [cexC6plant] := by
  simp [sortPlants, sortedInsert]

theorem cexC5b_step : greedyStep cexC6plant 0 50 = (5.3, 44.7, true) := by
  have hraw : rawInc cexC6plant 0 50 = 5.27 := by norm_num [rawInc, cexC6plant]
  have h53 : round10 (5.27 : ℚ) = 5.3 :=
    round10_eq_of _ _ ⟨53, by norm_num⟩ (by norm_num) (by norm_num)
  have happ : stepApplies cexC6plant 0 50 := by
    refine ⟨by simp [cexC6plant]; norm_num, by norm_num [cexC6plant], ?_⟩
    rw [hraw, h53]
    norm_num
  rw [greedyStep_applied happ, hraw, h53]
  rw [show (0 : ℚ) + 5.3 = 5.3 by norm_num, show (50 : ℚ) - 5.3 = 44.7 by norm_num]
  rw [round10_eq_of 5.3 5.3 ⟨53, by norm_num⟩ (by norm_num) (by norm_num),
    round10_eq_of 44.7 44.7 ⟨447, by norm_num⟩ (by norm_num) (by norm_num)]

theorem cexC5b_pass : greedyPass [cexC6plant] [0] 50 = ([5.3], 44.7, true) := by
  rw [greedyPass, cexC5b_step]
  rw [if_neg (by norm_num)]
  simp [greedyPass]

theorem cexC5b_pass2 : greedyPass [cexC6plant] [5.3] 44.7 = ([5.3], 44.7, false) := by
  rw [greedyPass,
    greedyStep_not_applied (fun h => h.1 (Or.inr (by norm_num [cexC6plant])))]
  rw [if_neg (by simp)]
  simp [greedyPass]

theorem cexC5b_loop : greedyLoop [cexC6plant] [0] 50 = ([5.3], 44.7, 2) := by
  have hinner : greedyLoop [cexC6plant] [5.3] 44.7 = ([5.3], 44.7, 1) := by
    rw [greedyLoop, dif_pos (by norm_num : (0.1 : ℚ) < 44.7), cexC5b_pass2]
    norm_num
  rw [greedyLoop, dif_pos (by norm_num : (0.1 : ℚ) < 50), cexC5b_pass]
  dsimp only
  rw [dif_pos rfl, dif_pos (by norm_num : (0.1 : ℚ) < 44.7), hinner]

theorem cexC5b_result : calculate_production_plan cexC5b = .ok [("g", 5.3)] := by
  rw [calculate_production_plan_ok cexC5b_derived, cexC5b_sorted]
  show Except.ok (optimize_production [cexC6plant] 50) = _
  unfold optimize_production
  have hw : windPass [cexC6plant] (50 : ℚ) = ([0], 50) := by
    rw [windPass_nonwind [cexC6plant] 50 (by simp [cexC6plant])]
    simp
  rw [hw, cexC5b_loop]
  have hsum : (50 : ℚ) - ([(5.3 : ℚ)]).sum = 44.7 := by norm_num
  rw [hsum, if_pos (show (0.1 : ℚ) < |(44.7 : ℚ)| by
    rw [abs_of_pos (by norm_num : (0 : ℚ) < 44.7)]
    norm_num)]
  rw [show residual_adjust [cexC6plant] [5.3] 44.7 = ([5.3], false) by
    norm_num [residual_adjust, cexC6plant]]
  simp [cexC6plant]

/-- C5 is false as stated, in two independent ways.  (i) The residual
correction bounds the adjusted entry by pmax, not by the wind
availability: with a 100 MW wind unit at 60% availability (60 MW) and an
unusable gas unit, a load of 70 makes the correction push the wind unit
to 70 MW, above its available capacity.  (ii) Without 0.1-grid alignment
of the unit limits even the non-wind bound fails: with pmax = 5.27 the
greedy rounding turns the idle gas unit on at round10(5.27) = 5.3 > pmax
and the final plan keeps that entry. -/
theorem C5_counterexample :
    (derivedPlants cexC5 = .ok [cexC3wind, cexC1plant] ∧
     cexC3wind.type = "windturbine" ∧
     calculate_production_plan cexC5 = .ok [("w", 70), ("g", 0)] ∧
     cexC3wind.available_power < 70) ∧
    (derivedPlants cexC5b = .ok [cexC6plant] ∧
     ¬cexC6plant.type = "windturbine" ∧
     calculate_production_plan cexC5b = .ok [("g", 5.3)] ∧
     ¬(5.3 : ℚ) = 0 ∧ cexC6plant.pmax < 5.3) := by
  refine ⟨⟨cexC5_derived, rfl, cexC5_result, by norm_num [cexC3wind]⟩,
    cexC5b_derived, by simp [cexC6plant], cexC5b_result, by norm_num,
    by norm_num [cexC6plant]⟩

theorem forall₂_imp_mem {α β : Type} {R R' : α → β → Prop} :
    ∀ {l₁ : List α} {l₂ : List β}, List.Forall₂ R l₁ l₂ →
      (∀ a ∈ l₁, ∀ b, R a b → R' a b) → List.Forall₂ R' l₁ l₂
  | _, _, List.Forall₂.nil, _ => List.Forall₂.nil
  | _, _, List.Forall₂.cons h t, himp =>
    List.Forall₂.cons (himp _ (by simp) _ h)
      (forall₂_imp_mem t fun a ha b hr => himp a (by simp [ha]) b hr)

theorem forall₂_zip_modus {P F : Plant → ℚ → Prop} :
    ∀ {ps : List Plant} {qs rs : List ℚ}, List.Forall₂ P ps qs →
      List.Forall₂ (fun x q => P x.1 x.2 → F x.1 q) (ps.zip qs) rs →
      List.Forall₂ F ps rs := by
  intro ps
  induction ps with
  | nil => intro qs rs h1 h2; cases h1; cases h2; exact List.Forall₂.nil
  | cons pl ps ih =>
    intro qs rs h1 h2
    cases h1 with
    | cons hh1 ht1 =>
      cases h2 with
      | cons hh2 ht2 => exact List.Forall₂.cons (hh2 hh1) (ih ht1 ht2)

theorem forall₂_zip_names {F : Plant → ℚ → Prop} :
    ∀ {S : List Plant} {P : List ℚ}, List.Forall₂ F S P →
      List.Forall₂ (fun pl (e : String × ℚ) => e.1 = pl.name ∧ F pl e.2) S
        ((S.map Plant.name).zip P)
  | _, _, List.Forall₂.nil => List.Forall₂.nil
  | _, _, List.Forall₂.cons h t =>
    List.Forall₂.cons ⟨rfl, h⟩ (forall₂_zip_names t)

/-- The invariant every plan value satisfies before the residual
correction: on the grid; zero or within [pmin, pmax] for cost-bearing
units; within [0, availableCapacity] for wind units. -/
def planEntryInv (pl : Plant) (p : ℚ) : Prop :=
  onGrid p ∧
  (¬pl.type = "windturbine" → p = 0 ∨ (pl.pmin ≤ p ∧ p ≤ pl.pmax)) ∧
  (pl.type = "windturbine" → 0 ≤ p ∧ p ≤ pl.available_power)

/-- The bounds the final plan satisfies (a residual-corrected wind entry
is only bounded by pmax, not by availableCapacity). -/
def planEntryBounds (pl : Plant) (p : ℚ) : Prop :=
  (¬pl.type = "windturbine" → p = 0 ∨ (pl.pmin ≤ p ∧ p ≤ pl.pmax)) ∧
  (pl.type = "windturbine" → 0 ≤ p ∧ p ≤ pl.pmax)

/-- C5 amended: with grid-aligned pmin/pmax/load, 0 ≤ pmin ≤ pmax and a
wind percentage in [0, 100], every non-wind entry of the final plan is 0
or within [pmin, pmax] and every wind entry is within [0, pmax]; the
sharper wind bound p ≤ availableCapacity holds for the plan of the greedy
loop, i.e. before the residual correction (which can exceed it, see the
counterexample). -/
theorem C5_amended (payload : Payload) (plants : List Plant)
    (hok : derivedPlants payload = .ok plants)
    (hload : onGrid payload.load)
    (hgrid : ∀ d ∈ payload.powerplants, onGrid d.pmin ∧ onGrid d.pmax)
    (hval : ∀ d ∈ payload.powerplants, 0 ≤ d.pmin ∧ d.pmin ≤ d.pmax)
    (hwindpct : 0 ≤ payload.fuels.wind ∧ payload.fuels.wind ≤ 100) :
    ∃ plan, calculate_production_plan payload = .ok plan ∧
      List.Forall₂ (fun pl (e : String × ℚ) => e.1 = pl.name ∧ planEntryBounds pl e.2)
        (sortPlants plants) plan ∧
      List.Forall₂ planEntryInv (sortPlants plants)
        (greedyLoop (sortPlants plants) (windPass (sortPlants plants) payload.load).1
          (windPass (sortPlants plants) payload.load).2).1 := by
  have hSg := sorted_plants_grid hok hgrid
  have hSv := sorted_plants_valid hok hval hwindpct
  have hWlen := windPass_length (sortPlants plants) payload.load
  have hWent := windPass_entries (sortPlants plants) payload.load
  have hW2 := windPass_grid (sortPlants plants) payload.load hload
    (fun pl hpl => (hSg pl hpl).2.2)
  have hFW : List.Forall₂ planEntryInv (sortPlants plants)
      (windPass (sortPlants plants) payload.load).1 := by
    refine forall₂_imp_mem hWent ?_
    intro pl hpl q hq
    exact ⟨hq.2.1, fun hnw => Or.inl (hq.1 hnw),
      fun hw => hq.2.2 ⟨((hSv pl hpl).2 hw).1, (hSg pl hpl).2.2⟩⟩
  have hloopzip := @greedyLoop_zip onGrid
    (fun pl p q => planEntryInv pl p → planEntryInv pl q)
    (sortPlants plants)
    (fun pl _ p r _ happ => greedyStep_applied_r_grid happ)
    (fun pl hpl p r hQr happ => by
      intro hF
      have hnw : ¬pl.type = "windturbine" := fun hw => happ.1 (Or.inl hw)
      refine ⟨greedyStep_p_grid hF.1, fun _ => ?_, fun hw => absurd hw hnw⟩
      exact Or.inr (greedyStep_applied_bounds_grid (hSg pl hpl).1 (hSg pl hpl).2.1
        hF.1 hQr happ (hF.2.1 hnw)))
    (fun _ _ h => h)
    (fun _ _ _ _ h1 h2 h => h2 (h1 h))
    (windPass (sortPlants plants) payload.load).1
    (windPass (sortPlants plants) payload.load).2
    hW2.1 hWlen
  have hFG : List.Forall₂ planEntryInv (sortPlants plants)
      (greedyLoop (sortPlants plants) (windPass (sortPlants plants) payload.load).1
        (windPass (sortPlants plants) payload.load).2).1 :=
    forall₂_zip_modus hFW hloopzip.1
  have hGgrid : ∀ q ∈ (greedyLoop (sortPlants plants)
      (windPass (sortPlants plants) payload.load).1
      (windPass (sortPlants plants) payload.load).2).1, onGrid q := by
    intro q hq
    obtain ⟨pl, -, hf⟩ := forall₂_mem_right hFG hq
    exact hf.1
  have hGlen : (greedyLoop (sortPlants plants)
      (windPass (sortPlants plants) payload.load).1
      (windPass (sortPlants plants) payload.load).2).1.length = (sortPlants plants).length :=
    greedyLoop_length _ _ _ hWlen
  refine ⟨optimize_production (sortPlants plants) payload.load,
    calculate_production_plan_ok hok, ?_, hFG⟩
  unfold optimize_production
  split
  · -- residual correction applied
    have hdiffgrid : onGrid (payload.load -
        ((greedyLoop (sortPlants plants) (windPass (sortPlants plants) payload.load).1
          (windPass (sortPlants plants) payload.load).2).1).sum) :=
      onGrid_sub hload (onGrid_sum hGgrid)
    have hadjzip := residual_adjust_zip (sortPlants plants)
      (greedyLoop (sortPlants plants) (windPass (sortPlants plants) payload.load).1
        (windPass (sortPlants plants) payload.load).2).1
      (payload.load - ((greedyLoop (sortPlants plants)
        (windPass (sortPlants plants) payload.load).1
        (windPass (sortPlants plants) payload.load).2).1).sum) hGlen
    refine forall₂_zip_names (forall₂_zip_modus hFG (forall₂_imp_mem hadjzip ?_))
    intro x hx q' hrel hF
    have hplS : x.1 ∈ sortPlants plants := (List.of_mem_zip hx).1
    rcases hrel with rfl | ⟨hpos, hg1, hg2, hq'⟩
    · exact ⟨hF.2.1, fun hw => ⟨(hF.2.2 hw).1,
        le_trans (hF.2.2 hw).2 ((hSv x.1 hplS).2 hw).2⟩⟩
    · have hq'eq : q' = x.2 + (payload.load -
          ((greedyLoop (sortPlants plants) (windPass (sortPlants plants) payload.load).1
            (windPass (sortPlants plants) payload.load).2).1).sum) := by
        rw [hq']
        exact round10_eq_self (onGrid_add hF.1 hdiffgrid)
      rw [hq'eq]
      refine ⟨fun _ => Or.inr ⟨hg1, hg2⟩, fun hw => ⟨le_trans ((hSv x.1 hplS).1).1 hg1, hg2⟩⟩
  · -- no correction: final plan is the greedy plan
    refine forall₂_zip_names (forall₂_imp_mem hFG ?_)
    intro pl hpl q hF
    exact ⟨hF.2.1, fun hw => ⟨(hF.2.2 hw).1, le_trans (hF.2.2 hw).2 ((hSv pl hpl).2 hw).2⟩⟩

theorem C5_amended_witness :
    onGrid cexC5.load ∧ (0 ≤ cexC5.fuels.wind ∧ cexC5.fuels.wind ≤ 100) ∧
    (∃ plan, calculate_production_plan cexC5 = .ok plan ∧
      List.Forall₂ (fun pl (e : String × ℚ) => e.1 = pl.name ∧ planEntryBounds pl e.2)
        (sortPlants [cexC3wind, cexC1plant]) plan ∧
      List.Forall₂ planEntryInv (sortPlants [cexC3wind, cexC1plant])
        (greedyLoop (sortPlants [cexC3wind, cexC1plant])
          (windPass (sortPlants [cexC3wind, cexC1plant]) cexC5.load).1
          (windPass (sortPlants [cexC3wind, cexC1plant]) cexC5.load).2).1) :=
  ⟨⟨700, by norm_num [cexC5]⟩, ⟨by norm_num [cexC5], by norm_num [cexC5]⟩,
   C5_amended cexC5 [cexC3wind, cexC1plant] cexC5_derived ⟨700, by norm_num [cexC5]⟩
     (by intro d hd
         simp [cexC5] at hd
         rcases hd with h | h <;> subst h
         · exact ⟨⟨0, by norm_num⟩, ⟨1000, by norm_num⟩⟩
         · exact ⟨⟨1000, by norm_num⟩, ⟨4600, by norm_num⟩⟩)
     (by intro d hd
         simp [cexC5] at hd
         rcases hd with h | h <;> subst h <;> norm_num)
     ⟨by norm_num [cexC5], by norm_num [cexC5]⟩⟩

theorem forall₂_zip_drop {R' : ℚ → ℚ → Prop} :
    ∀ {ps : List Plant} {qs rs : List ℚ}, qs.length = ps.length →
      List.Forall₂ (fun x q => R' x.2 q) (ps.zip qs) rs → List.Forall₂ R' qs rs := by
  intro ps
  induction ps with
  | nil =>
    intro qs rs hlen h
    have hq : qs = [] := List.length_eq_zero.mp (by simpa using hlen)
    subst hq
    cases h
    exact List.Forall₂.nil
  | cons pl ps ih =>
    intro qs rs hlen h
    cases qs with
    | nil => simp at hlen
    | cons p qs =>
      cases h with
      | cons hh ht => exact List.Forall₂.cons hh (ih (by simpa using hlen) ht)

theorem forall₂_zip_right {R' : ℚ → ℚ → Prop} :
    ∀ {qs rs : List ℚ} {ns : List String},
      ns.length = qs.length → List.Forall₂ R' qs rs →
      List.Forall₂ (fun p (e : String × ℚ) => R' p e.2) qs (ns.zip rs) := by
  intro qs
  induction qs with
  | nil =>
    intro rs ns hlen h
    cases h
    simp
  | cons q qs ih =>
    intro rs ns hlen h
    cases h with
    | cons hh ht =>
      cases ns with
      | nil => simp at hlen
      | cons n ns => exact List.Forall₂.cons hh (ih (by simpa using hlen) ht)

/-- C8: within one computation no unit ever returns from a positive
allocation to zero: the greedy loop never decreases any entry of the
wind-pass plan, and the residual correction never zeroes a positive
entry of the greedy plan (a triggered correction always has a positive
difference, because the total can never overshoot the load by more than
0.1). -/
theorem C8_no_active_to_idle (payload : Payload) (plants : List Plant)
    (hok : derivedPlants payload = .ok plants) :
    ∃ plan, calculate_production_plan payload = .ok plan ∧
      List.Forall₂ (fun p q => p ≤ q ∧ (0 < p → 0 < q))
        (windPass (sortPlants plants) payload.load).1
        (greedyLoop (sortPlants plants) (windPass (sortPlants plants) payload.load).1
          (windPass (sortPlants plants) payload.load).2).1 ∧
      List.Forall₂ (fun p (e : String × ℚ) => 0 < p → 0 < e.2)
        (greedyLoop (sortPlants plants) (windPass (sortPlants plants) payload.load).1
          (windPass (sortPlants plants) payload.load).2).1 plan := by
  have hWlen := windPass_length (sortPlants plants) payload.load
  have hWent := windPass_entries (sortPlants plants) payload.load
  have hWgrid : ∀ q ∈ (windPass (sortPlants plants) payload.load).1, onGrid q := by
    intro q hq
    obtain ⟨pl, -, hf⟩ := forall₂_mem_right hWent hq
    exact hf.2.1
  have hWsum := windPass_sum (sortPlants plants) payload.load
  have hzip := (@greedyLoop_zip (fun _ => True)
    (fun _ p q => onGrid p → (onGrid q ∧ p ≤ q))
    (sortPlants plants)
    (fun _ _ _ _ _ _ => trivial)
    (fun pl _ p r _ happ => fun hg => ⟨greedyStep_p_grid hg, greedyStep_p_le hg⟩)
    (fun _ p hg => ⟨hg, le_refl p⟩)
    (fun _ p q s h1 h2 hg => ⟨(h2 (h1 hg).1).1, le_trans (h1 hg).2 (h2 (h1 hg).1).2⟩)
    (windPass (sortPlants plants) payload.load).1
    (windPass (sortPlants plants) payload.load).2
    trivial hWlen).1
  have hmono : List.Forall₂ (fun p q => onGrid q ∧ p ≤ q)
      (windPass (sortPlants plants) payload.load).1
      (greedyLoop (sortPlants plants) (windPass (sortPlants plants) payload.load).1
        (windPass (sortPlants plants) payload.load).2).1 := by
    refine forall₂_zip_drop hWlen (forall₂_imp_mem hzip ?_)
    intro x hx q hr
    exact hr (hWgrid x.2 (List.of_mem_zip hx).2)
  have hGgrid : ∀ q ∈ (greedyLoop (sortPlants plants)
      (windPass (sortPlants plants) payload.load).1
      (windPass (sortPlants plants) payload.load).2).1, onGrid q := by
    intro q hq
    obtain ⟨p, -, hf⟩ := forall₂_mem_right hmono hq
    exact hf.1
  have hGlen : (greedyLoop (sortPlants plants)
      (windPass (sortPlants plants) payload.load).1
      (windPass (sortPlants plants) payload.load).2).1.length = (sortPlants plants).length :=
    greedyLoop_length _ _ _ hWlen
  have hnames : ((sortPlants plants).map Plant.name).length =
      (greedyLoop (sortPlants plants) (windPass (sortPlants plants) payload.load).1
        (windPass (sortPlants plants) payload.load).2).1.length := by
    rw [List.length_map, hGlen]
  refine ⟨optimize_production (sortPlants plants) payload.load,
    calculate_production_plan_ok hok,
    forall₂_imp_mem hmono (fun p _ q h => ⟨h.2, fun hp => lt_of_lt_of_le hp h.2⟩), ?_⟩
  unfold optimize_production
  split
  · next htr =>
    refine @forall₂_zip_right (fun p q => 0 < p → 0 < q) _ _ _ hnames ?_
    have hadjzip := residual_adjust_zip (sortPlants plants)
      (greedyLoop (sortPlants plants) (windPass (sortPlants plants) payload.load).1
        (windPass (sortPlants plants) payload.load).2).1
      (payload.load - ((greedyLoop (sortPlants plants)
        (windPass (sortPlants plants) payload.load).1
        (windPass (sortPlants plants) payload.load).2).1).sum) hGlen
    by_cases hload0 : payload.load ≤ 0
    · -- nonpositive load: the greedy plan is all zero, nothing is positive
      have hWz := windPass_nonpos (sortPlants plants) payload.load hload0
      have hGz : (greedyLoop (sortPlants plants)
          (windPass (sortPlants plants) payload.load).1
          (windPass (sortPlants plants) payload.load).2).1 =
          (windPass (sortPlants plants) payload.load).1 := by
        rw [greedyLoop_not_run (by rw [hWz]; dsimp only; intro hc; norm_num at hc; linarith)]
      refine forall₂_zip_drop hGlen (forall₂_imp_mem hadjzip ?_)
      intro x hx q' hrel hpos
      have hx2 : x.2 = 0 := by
        have hmem := (List.of_mem_zip hx).2
        rw [hGz, hWz] at hmem
        exact List.eq_of_mem_replicate hmem
      rcases hrel with rfl | ⟨hp, -⟩
      · exact hpos
      · rw [hx2] at hp
        norm_num at hp
    · -- positive load: the triggered difference is strictly positive
      push_neg at hload0
      obtain ⟨e, hsum, -, hb, -⟩ := greedyLoop_drift (sortPlants plants)
        (windPass (sortPlants plants) payload.load).1
        (windPass (sortPlants plants) payload.load).2 hWgrid hWlen
      have hW2lb : -(1 / 20) ≤ (windPass (sortPlants plants) payload.load).2 :=
        windPass_r_lb (sortPlants plants) payload.load (by linarith)
      have hGr : -(1 / 20) ≤ (greedyLoop (sortPlants plants)
          (windPass (sortPlants plants) payload.load).1
          (windPass (sortPlants plants) payload.load).2).2.1 := by
        have := greedyLoop_r_lb (sortPlants plants)
          (windPass (sortPlants plants) payload.load).1
          (windPass (sortPlants plants) payload.load).2
        rcases le_total (windPass (sortPlants plants) payload.load).2 0 with hc | hc
        · rw [min_eq_left hc] at this; linarith
        · rw [min_eq_right hc] at this; linarith
      have hdiff : -(1 / 10) ≤ payload.load - ((greedyLoop (sortPlants plants)
          (windPass (sortPlants plants) payload.load).1
          (windPass (sortPlants plants) payload.load).2).1).sum := by
        have : ((greedyLoop (sortPlants plants)
            (windPass (sortPlants plants) payload.load).1
            (windPass (sortPlants plants) payload.load).2).1).sum =
            payload.load - (greedyLoop (sortPlants plants)
              (windPass (sortPlants plants) payload.load).1
              (windPass (sortPlants plants) payload.load).2).2.1 + e := by
          linarith
        linarith
      have hdpos : 0.1 < payload.load - ((greedyLoop (sortPlants plants)
          (windPass (sortPlants plants) payload.load).1
          (windPass (sortPlants plants) payload.load).2).1).sum := by
        rcases lt_abs.mp htr with h | h
        · exact h
        · exfalso
          norm_num at h
          linarith
      refine forall₂_zip_drop hGlen (forall₂_imp_mem hadjzip ?_)
      intro x hx q' hrel hpos
      rcases hrel with rfl | ⟨hp, -, -, hq'⟩
      · exact hpos
      · have hxg : onGrid x.2 := hGgrid x.2 (List.of_mem_zip hx).2
        have hx1 : 0.1 ≤ x.2 := onGrid_pos_tenth hxg hp
        rw [hq']
        have := sub_twentieth_lt_round10 (x.2 + (payload.load -
          ((greedyLoop (sortPlants plants) (windPass (sortPlants plants) payload.load).1
            (windPass (sortPlants plants) payload.load).2).1).sum))
        norm_num at hx1 ⊢
        linarith
  · next htr =>
    refine @forall₂_zip_right (fun p q => 0 < p → 0 < q) _ _ _ hnames ?_
    exact List.forall₂_same.2 fun q _ => fun h => h

theorem C8_witness :
    derivedPlants witC1 = .ok [cexC1plant] ∧
    (∃ plan, calculate_production_plan witC1 = .ok plan ∧
      List.Forall₂ (fun p q => p ≤ q ∧ (0 < p → 0 < q))
        (windPass (sortPlants [cexC1plant]) witC1.load).1
        (greedyLoop (sortPlants [cexC1plant])
          (windPass (sortPlants [cexC1plant]) witC1.load).1
          (windPass (sortPlants [cexC1plant]) witC1.load).2).1 ∧
      List.Forall₂ (fun p (e : String × ℚ) => 0 < p → 0 < e.2)
        (greedyLoop (sortPlants [cexC1plant])
          (windPass (sortPlants [cexC1plant]) witC1.load).1
          (windPass (sortPlants [cexC1plant]) witC1.load).2).1 plan) :=
  ⟨witC1_derived, C8_no_active_to_idle witC1 [cexC1plant] witC1_derived⟩

/-- C7: the greedy multi-pass loop terminates.  A full pass that applies
no increment ends the loop immediately, leaving plan and remaining load
unchanged; the loop never runs more than two passes at all (the second
only to discover that no progress is possible); and in the non-stalled
case (final remaining load at most 0.1) the number of passes is bounded
by the number of cost-bearing (non-wind) units. -/
theorem C7_loop_pass_bound (payload : Payload) (plants : List Plant)
    (hok : derivedPlants payload = .ok plants) :
    (∀ (qs : List ℚ) (r : ℚ), qs.length = (sortPlants plants).length → 0.1 < r →
      (greedyPass (sortPlants plants) qs r).2.2 = false →
      greedyLoop (sortPlants plants) qs r = (qs, r, 1)) ∧
    (greedyLoop (sortPlants plants) (windPass (sortPlants plants) payload.load).1
      (windPass (sortPlants plants) payload.load).2).2.2 ≤ 2 ∧
    ((greedyLoop (sortPlants plants) (windPass (sortPlants plants) payload.load).1
        (windPass (sortPlants plants) payload.load).2).2.1 ≤ 0.1 →
      (greedyLoop (sortPlants plants) (windPass (sortPlants plants) payload.load).1
        (windPass (sortPlants plants) payload.load).2).2.2 ≤
        ((sortPlants plants).filter (fun pl => !(pl.type == "windturbine"))).length) := by
  have hWlen := windPass_length (sortPlants plants) payload.load
  have hWent := windPass_entries (sortPlants plants) payload.load
  have hinv : ∀ x ∈ (sortPlants plants).zip (windPass (sortPlants plants) payload.load).1,
      ¬x.1.type = "windturbine" → onGrid x.2 ∧ 0 ≤ x.2 := by
    intro x hx hnw
    have := forall₂_zip_mem hWent hx
    rw [this.1 hnw]
    exact ⟨onGrid_zero, le_refl 0⟩
  refine ⟨?_, ?_⟩
  · intro qs r hlen hr hprog
    have hnp := greedyPass_no_progress hprog
    rw [greedyLoop, dif_pos hr, dif_neg (by simp [hprog]), hnp.1, hnp.2 hlen]
  by_cases hrun : 0.1 < (windPass (sortPlants plants) payload.load).2
  · have hcol := greedyLoop_eq_pass (sortPlants plants)
      (windPass (sortPlants plants) payload.load).1
      (windPass (sortPlants plants) payload.load).2 hWlen hinv hrun
    rw [hcol]
    refine ⟨by dsimp only; split <;> norm_num, ?_⟩
    dsimp only
    intro hns
    split
    · next hcond => exact absurd hns (not_le.mpr hcond.2)
    · next hcond =>
      by_cases hprog : (greedyPass (sortPlants plants)
          (windPass (sortPlants plants) payload.load).1
          (windPass (sortPlants plants) payload.load).2).2.2 = true
      · obtain ⟨pl, hpl, hnw⟩ := greedyPass_progress_nonwind (sortPlants plants)
          (windPass (sortPlants plants) payload.load).1
          (windPass (sortPlants plants) payload.load).2 hprog
        have hmem : pl ∈ (sortPlants plants).filter
            (fun pl => !(pl.type == "windturbine")) :=
          List.mem_filter.mpr ⟨hpl, by simp [hnw]⟩
        have hposlen := List.length_pos.mpr (List.ne_nil_of_mem hmem)
        omega
      · have hf : (greedyPass (sortPlants plants)
            (windPass (sortPlants plants) payload.load).1
            (windPass (sortPlants plants) payload.load).2).2.2 = false :=
          Bool.eq_false_iff.mpr hprog
        have hnp := greedyPass_no_progress hf
        rw [hnp.1] at hns
        exact absurd hns (not_le.mpr hrun)
  · rw [greedyLoop_not_run hrun]
    exact ⟨by norm_num, fun _ => Nat.zero_le _⟩

theorem C7_witness :
    derivedPlants witC1 = .ok [cexC1plant] ∧
    (greedyLoop (sortPlants [cexC1plant]) (windPass (sortPlants [cexC1plant]) witC1.load).1
      (windPass (sortPlants [cexC1plant]) witC1.load).2).2.2 ≤ 2 ∧
    ((greedyLoop (sortPlants [cexC1plant]) (windPass (sortPlants [cexC1plant]) witC1.load).1
        (windPass (sortPlants [cexC1plant]) witC1.load).2).2.1 ≤ 0.1 →
      (greedyLoop (sortPlants [cexC1plant]) (windPass (sortPlants [cexC1plant]) witC1.load).1
        (windPass (sortPlants [cexC1plant]) witC1.load).2).2.2 ≤
        ((sortPlants [cexC1plant]).filter (fun pl => !(pl.type == "windturbine"))).length) :=
  ⟨witC1_derived, (C7_loop_pass_bound witC1 [cexC1plant] witC1_derived).2⟩
